import Mathlib

/-!
# FuncStack (src/index.js): a shallow embedding

The store of `src/index.js` is embedded as a record of its `_data`, `_internal` and
`options` objects.  Tasks are JavaScript function objects: the store writes the
properties `fnCount` and `queueMode` on the function object itself, so these two
properties live in the state as maps from function objects (`fnCountOf`,
`queueModeOf`), and the four collections hold references.

Observers (`onStart`, `onProgress`, `onError`, `onCompleted`) are embedded as a log of
their invocations: they are taken to record their arguments and not to call back into the
store.  `setTimeout(fnWrapper, 0)` is embedded as the list `timers` of scheduled wrapper
invocations.  A task body is described by what the wrapper sees of it (whether it called
`preventDefault`, and the value it returned or threw); calls a body makes into the store,
among them calls of its resolver, are transitions of their own.  Operations that can
raise return an `Outcome`: the state reached together with either the returned value or
the thrown value.  The file is strict code (`'use strict'` at line 20) and is read in a
standard ECMAScript environment.
-/

namespace FuncStack

/-- JavaScript values that can travel through the store as results and statuses. -/
inductive JsVal
  | undefined
  | null
  | bool (b : Bool)
  | num (n : Int)
  | nan
  | str (s : String)
  | obj (ref : Nat)
deriving DecidableEq, Repr

/-- Truthiness of a value (`ToBoolean`). -/
def JsVal.truthy : JsVal → Bool
  | .undefined => false
  | .null => false
  | .bool b => b
  | .num n => n != 0
  | .nan => false
  | .str s => s != ""
  | .obj _ => true

/-- The operator `a || b`. -/
def JsVal.or (a b : JsVal) : JsVal := if a.truthy then a else b

/-- A function object: its identity and its `name` property. -/
structure Fn where
  ref : Nat
  name : String
deriving DecidableEq, Repr

/-- Members of `FuncStack.ENUM_QUEUEMODE`. -/
inductive QueueMode
  | async
  | defer
deriving DecidableEq, Repr

/-- Members of `FuncStack.ENUM_ADDMODE` (`BOTTOM: 0`, `TOP: 1`). -/
inductive AddMode
  | bottom
  | top
deriving DecidableEq, Repr

/-- Truthiness of an add mode: `BOTTOM` is 0, `TOP` is 1. -/
def AddMode.truthy : AddMode → Bool
  | .bottom => false
  | .top => true

/-- The array-valued keys of `_data`, in their insertion order. -/
inductive StackName
  | queue
  | working
  | done
  | error
deriving DecidableEq, Repr

/-- `FuncStack.ENUM_STATUS.SUCCESS`. -/
def SUCCESS : JsVal := .str "success"
/-- `FuncStack.ENUM_STATUS.ERROR`. -/
def ERROR : JsVal := .str "error"
/-- `FuncStack.ENUM_STATUS.CANCELED`. -/
def CANCELED : JsVal := .str "canceled"
/-- `FuncStack.ENUM_STATUS.WORKING`: ENUM_STATUS has the members SUCCESS, ERROR and
CANCELED only, so this property read yields undefined. -/
def ENUM_STATUS_WORKING : JsVal := .undefined

/-- The behavioural keys of `this.options`.  The observers are embedded as the event
log.  `startCount` is not among the defaults of the constructor; it is present only
when the options block of the caller carries it, and `start` reads it. -/
structure Options where
  defaultQueueMode : QueueMode := .async
  enforceDefaultQueueMode : Bool := false
  manualConsume : Bool := false
  addMode : AddMode := .bottom
  debug : Bool := false
  startCount : Option Nat := none
deriving DecidableEq, Repr

/-- The `counts` object of a status object. -/
structure Counts where
  start : Option Nat
  left : Nat
  finished : Nat
  pending : Nat
  working : Nat
  total : Nat
deriving DecidableEq, Repr

/-- `FuncStack.StatusNotificationObject`. -/
structure StatusNotificationObject where
  status : JsVal
  result : JsVal
deriving DecidableEq, Repr

/-- `FuncStack.StatusObject` (its `queuesReference` is the live `_data` object, that is
the store itself, and is not copied). -/
structure StatusObject where
  status : JsVal
  result : JsVal
  queueMode : Option QueueMode
  counts : Counts
deriving DecidableEq, Repr

/-- `FuncStack.FnInfoObject`. -/
structure FnInfoObject where
  fn : Fn
  stack : StackName
  pos : Nat
  id : Option Nat
deriving DecidableEq, Repr

/-- `fnInfo.state`: a FnInfoObject has the properties fn, stack, pos and id; it has no
`state` property, so this read yields undefined. -/
def FnInfoObject.state (_ : FnInfoObject) : JsVal := .undefined

/-- One invocation of an observer. -/
inductive Event
  | onStart (initialLen : Option Nat) (wasPaused : Bool)
  | onProgress (statusObj : StatusObject) (curFn : Fn)
  | onError (statusObj : StatusObject) (curFn : Fn)
  | onCompleted (statusObj : StatusObject)
deriving DecidableEq, Repr

/-- Values thrown by the store. -/
inductive Thrown
  | addArgument
  | statusFaulty
  | typeError
  | referenceError
deriving DecidableEq, Repr

end FuncStack

/-- The store: `_data`, `_internal`, `options`, the two properties written on the
function objects, the scheduled wrappers and the observer log. -/
structure FuncStack where
  queue : List FuncStack.Fn
  working : List FuncStack.Fn
  done : List FuncStack.Fn
  error : List FuncStack.Fn
  startCount : Option Nat
  fnCount : Nat
  restarted : Nat
  paused : Bool
  options : FuncStack.Options
  fnCountOf : FuncStack.Fn → Option Nat
  queueModeOf : FuncStack.Fn → Option FuncStack.QueueMode
  timers : List FuncStack.Fn
  log : List FuncStack.Event

namespace FuncStack

/-- The state reached by an operation and what it returned or threw. -/
structure Outcome (α : Type) where
  state : FuncStack
  result : Except Thrown α

/-- The constructor body before the optional initial `add`. -/
def fresh (options : Options) : FuncStack :=
  { queue := [], working := [], done := [], error := [], startCount := none,
    fnCount := 0, restarted := 0, paused := false, options := options,
    fnCountOf := fun _ => none, queueModeOf := fun _ => none,
    timers := [], log := [] }

/-- An element of the array handed to `add`: a function, an object with the keys
addMode and fn (either may be absent), or a value on which the property reads
fail (null, undefined). -/
inductive AddItem
  | fn (f : Fn)
  | obj (addMode : Option AddMode) (fn : Option Fn)
  | nullish
deriving DecidableEq, Repr

/-- The first argument of `add`. -/
inductive AddArg
  | func (f : Fn)
  | array (items : List AddItem)
  | other
deriving DecidableEq, Repr

/-- The body of the loop of `add` (lines 124 to 128) for the function `f` placed with
mode `m` (`none` is an absent, hence falsy, addMode). -/
def register (s : FuncStack) (queueMode : Option QueueMode) (m : Option AddMode) (f : Fn) :
    FuncStack :=
  let mode : QueueMode :=
    if s.options.enforceDefaultQueueMode then s.options.defaultQueueMode
    else queueMode.getD s.options.defaultQueueMode
  let notM : Bool := match m with
    | none => true
    | some a => !a.truthy
  { s with
    fnCountOf := fun g => if g = f then some s.fnCount else s.fnCountOf g
    queueModeOf := fun g => if g = f then some mode else s.queueModeOf g
    queue := if notM then s.queue ++ [f] else f :: s.queue
    fnCount := s.fnCount + 1 }

/-- The loop `for (var i in fn)` of `add`. -/
def addLoop (queueMode : Option QueueMode) : FuncStack → List AddItem → Outcome Unit
  | s, [] => ⟨s, .ok ()⟩
  | s, .fn f :: rest => addLoop queueMode (register s queueMode (some s.options.addMode) f) rest
  | s, .obj m (some f) :: rest => addLoop queueMode (register s queueMode m f) rest
  | s, .obj _ none :: _ => ⟨s, .error .typeError⟩
  | s, .nullish :: _ => ⟨s, .error .typeError⟩

/-- `FuncStack.prototype.add`.  For a function the first branch wraps it in an array
and the loop, which sits in the `else if` branch, is not entered. -/
def add (s : FuncStack) (fn : AddArg) (queueMode : Option QueueMode) : Outcome Unit :=
  match fn with
  | .func _ => ⟨s, .ok ()⟩
  | .array items => addLoop queueMode s items
  | .other => ⟨s, .error .addArgument⟩

/-- `FuncStack.prototype.push`. -/
def push (s : FuncStack) (fn : AddArg) (queueMode : Option QueueMode) : Outcome Int :=
  let r := add s fn queueMode
  match r.result with
  | .ok _ => ⟨r.state, .ok ((r.state.fnCount : Int) - 1)⟩
  | .error e => ⟨r.state, .error e⟩

/-- `FuncStack.prototype.length`. -/
def length (s : FuncStack) : Nat := s.fnCount

/-- Read `this._data[stackName]`. -/
def stack (s : FuncStack) : StackName → List Fn
  | .queue => s.queue
  | .working => s.working
  | .done => s.done
  | .error => s.error

/-- Write `this._data[stackName]`. -/
def setStack (s : FuncStack) (n : StackName) (l : List Fn) : FuncStack :=
  match n with
  | .queue => { s with queue := l }
  | .working => { s with working := l }
  | .done => { s with done := l }
  | .error => { s with error := l }

/-- `Array.prototype.indexOf` from position `pos` on. -/
def indexOfFrom (f : Fn) : List Fn → Nat → Int
  | [], _ => -1
  | g :: rest, pos => if g = f then (pos : Int) else indexOfFrom f rest (pos + 1)

/-- `Array.prototype.indexOf`. -/
def indexOf (l : List Fn) (f : Fn) : Int := indexOfFrom f l 0

/-- `Array.prototype.splice(start, 1)`: a negative start counts from the end. -/
def splice1 (l : List Fn) (start : Int) : List Fn :=
  let actualStart : Int := if start < 0 then max ((l.length : Int) + start) 0
    else min start (l.length : Int)
  l.eraseIdx actualStart.toNat

/-- What `Number(id)` is for a string `id`, as far as a comparison with a `fnCount` can
tell: not a number (`isNaN(id)` holds), the non-negative integer `k`, or a number that
is no non-negative integer (negative, fractional, infinite) and so equals no `fnCount`. -/
inductive StringNumber
  | nan
  | nat (k : Nat)
  | other
deriving DecidableEq, Repr

/-- The value of a string of decimal digits, the empty string included (its value is 0):
for these strings `Number(id)` is the number written. -/
def digitsValue (str : String) : Option Nat :=
  if str.data.all Char.isDigit then
    some (str.data.foldl (fun acc c => 10 * acc + (c.toNat - 48)) 0)
  else none

/-- The argument of `get` and `cancel`: a number, a string, or a function object.  A string
comes with the number the language converts it to (`number`), because line 447 asks
`isNaN(id)` and line 451 compares with `==`; the conversion is ECMAScript's, not the
repository's. -/
inductive Ident
  | num (n : Int)
  | str (s : String) (number : StringNumber)
  | fn (f : Fn)
deriving DecidableEq, Repr

/-- The test of line 451, `this._data[s][fnKey][key] == id || this._data[s][fnKey] == id`,
for the stored function `f`, with `key = !isNaN(id) ? 'fnCount' : 'name'` (line 447).
For a number, and for a string that converts to a number, the key is `fnCount` and the
comparison is numeric; for a string that converts to no number the key is `name`; for a
function object the key is `name` as well, and a function object equals only itself
(the string conversion of a function object is taken to equal no identifier). -/
def matchesId (s : FuncStack) (id : Ident) (f : Fn) : Bool :=
  match id with
  | .num n =>
    (match s.fnCountOf f with
     | some k => decide ((k : Int) = n)
     | none => false)
  | .str str .nan => decide (f.name = str)
  | .str _ (.nat n) =>
    (match s.fnCountOf f with
     | some k => decide (k = n)
     | none => false)
  | .str _ .other => false
  | .fn g => decide (f = g)

/-- The inner loop of `get` over one array, from position `pos` on. -/
def scanStack (s : FuncStack) (id : Ident) (n : StackName) : List Fn → Nat → Option FnInfoObject
  | [], _ => none
  | f :: rest, pos =>
    if matchesId s id f then some ⟨f, n, pos, s.fnCountOf f⟩
    else scanStack s id n rest (pos + 1)

/-- `FuncStack.prototype.get`: the keys of `_data` are visited in the order queue,
working, done, error (startCount is not an array). -/
def get (s : FuncStack) (id : Ident) : Option FnInfoObject :=
  match scanStack s id .queue s.queue 0 with
  | some i => some i
  | none =>
    match scanStack s id .working s.working 0 with
    | some i => some i
    | none =>
      match scanStack s id .done s.done 0 with
      | some i => some i
      | none => scanStack s id .error s.error 0

/-- `FuncStack.prototype._consumeCheck`.  Reading `queue[0].queueMode` on an empty queue
raises a TypeError; with the debug option the read happens before anything else. -/
def _consumeCheck (s : FuncStack) : Except Thrown Bool :=
  match s.queue with
  | [] =>
    if s.options.debug then .error .typeError
    else if s.working.length = 0 then .ok true
    else .error .typeError
  | q0 :: _ =>
    .ok (s.working.length = 0
      || (s.queueModeOf q0 == some QueueMode.async
          && (s.working.length != 0
              && (match s.working with
                  | [] => false
                  | w0 :: _ => s.queueModeOf w0 == some QueueMode.async))))

/-- The `while` loop of `_consume`; every iteration that does not leave the loop removes
one element of the queue, so `queue.length` iterations are enough.  The check cannot
raise inside the loop, because `queue[0]` exists there. -/
def consumeLoop : Nat → FuncStack → FuncStack
  | 0, s => s
  | n + 1, s =>
    match s.queue with
    | [] => s
    | fn :: rest =>
      match _consumeCheck s with
      | .ok true =>
        consumeLoop n { s with queue := rest, working := s.working ++ [fn],
                               timers := s.timers ++ [fn] }
      | _ => s

/-- `FuncStack.prototype._consume`. -/
def _consume (s : FuncStack) : FuncStack :=
  if s.paused then s else consumeLoop s.queue.length s

/-- The `counts` object built at the head of `_check`. -/
def countsOf (s : FuncStack) : Counts :=
  { start := s.startCount
    left := s.working.length + s.queue.length
    finished := s.done.length + s.error.length
    pending := s.queue.length
    working := s.working.length
    total := s.fnCount }

/-- Lines 218 to 225 of `_check`: the completion test. -/
def checkCompleted (s : FuncStack) (statusObj : StatusObject) : FuncStack :=
  let nowLeft := s.working.length + s.queue.length
  if nowLeft = 0 then { s with log := s.log ++ [Event.onCompleted statusObj] } else s

/-- Lines 213 to 225 of `_check`, after the switch. -/
def afterSwitch (s : FuncStack) (statusObj : StatusObject) (stackName : Option StackName) :
    FuncStack :=
  match stackName with
  | some _ => s
  | none => checkCompleted (if s.options.manualConsume then s else _consume s) statusObj

/-- Lines 189 to 191 of `_check`: the function is looked up in the named array (working
when no name is given) and `splice` is called with the position found. -/
def removed (s : FuncStack) (stackName : Option StackName) (f : Fn) : FuncStack :=
  setStack s (stackName.getD StackName.working)
    (splice1 (stack s (stackName.getD StackName.working))
      (indexOf (stack s (stackName.getD StackName.working)) f))

/-- Lines 196 to 198 of `_check`: the success case of the switch. -/
def pushDone (s : FuncStack) (f : Fn) (statusObj : StatusObject) : FuncStack :=
  { s with done := s.done ++ [f], log := s.log ++ [Event.onProgress statusObj f] }

/-- Lines 203 to 205 of `_check`: the canceled and error cases of the switch. -/
def pushError (s : FuncStack) (f : Fn) (statusObj : StatusObject) : FuncStack :=
  { s with error := s.error ++ [f], log := s.log ++ [Event.onError statusObj f] }

/-- `FuncStack.prototype._check`. -/
def _check (s : FuncStack) (statusNotificationObj : Option StatusNotificationObject)
    (curFn : Option Fn) (stackName : Option StackName) : Outcome Unit :=
  let n : StatusNotificationObject := statusNotificationObj.getD ⟨.undefined, .undefined⟩
  let statusObj0 : StatusObject :=
    { status := n.status, result := n.result, queueMode := none, counts := countsOf s }
  match curFn with
  | none => ⟨checkCompleted s statusObj0, .ok ()⟩
  | some f =>
    let statusObj : StatusObject := { statusObj0 with queueMode := s.queueModeOf f }
    let s1 := removed s stackName f
    if statusObj.status = SUCCESS then
      ⟨afterSwitch (pushDone s1 f statusObj) statusObj stackName, .ok ()⟩
    else if statusObj.status = CANCELED ∨ statusObj.status = ERROR then
      ⟨afterSwitch (pushError s1 f statusObj) statusObj stackName, .ok ()⟩
    else
      ⟨{ s1 with error := s1.error ++ [f] }, .error .statusFaulty⟩

/-- The first argument of a resolver: a StatusNotificationObject or any other value. -/
inductive ResolveArg
  | notification (n : StatusNotificationObject)
  | value (status : JsVal)
deriving DecidableEq, Repr

/-- The closure `resolveFn` of the wrapper of `fn`. -/
def resolveFn (s : FuncStack) (fn : Fn) (status : ResolveArg) (result : JsVal) : Outcome Bool :=
  match get s (.fn fn) with
  | none => ⟨s, .ok false⟩
  | some fnInfo =>
    if fnInfo.state != ENUM_STATUS_WORKING then ⟨s, .ok false⟩
    else
      let statusObj : StatusNotificationObject :=
        match status with
        | .notification n => n
        | .value v => ⟨v, result⟩
      let r := _check s (some statusObj) (some fn) none
      match r.result with
      | .ok _ => ⟨r.state, .ok true⟩
      | .error e => ⟨r.state, .error e⟩

/-- How the body of a task ends. -/
inductive Completion
  | returns (v : JsVal)
  | throws (e : JsVal)
deriving DecidableEq, Repr

/-- What one synchronous run of a task body does with its context: whether it called
`preventDefault`, and how it ended. -/
structure TaskRun where
  preventDefault : Bool
  completion : Completion
deriving DecidableEq, Repr

/-- The closure `fnWrapper` for the admitted function `fn` (lines 309 to 320). -/
def fnWrapper (s : FuncStack) (fn : Fn) (run : TaskRun) : Outcome Unit :=
  let waitForCallback := run.preventDefault
  let ret : JsVal := match run.completion with
    | .returns v => v
    | .throws _ => .undefined
  let err : JsVal := match run.completion with
    | .returns _ => .undefined
    | .throws e => e
  if !waitForCallback || (waitForCallback && err.truthy) || err.truthy then
    let r := resolveFn s fn (.value (if !err.truthy then SUCCESS else ERROR)) (ret.or err)
    match r.result with
    | .ok _ => ⟨r.state, .ok ()⟩
    | .error e => ⟨r.state, .error e⟩
  else ⟨s, .ok ()⟩

/-- The environment fires the oldest scheduled wrapper. -/
def fireTimer (s : FuncStack) (run : TaskRun) : Outcome Unit :=
  match s.timers with
  | [] => ⟨s, .ok ()⟩
  | fn :: rest => fnWrapper { s with timers := rest } fn run

/-- Lines 342 to 348 of `start`: the start count is recorded on the first call, the pause
flag is cleared and the start observer is invoked. -/
def startPrologue (s : FuncStack) : FuncStack :=
  let s1 := if s.startCount.isNone then { s with startCount := some s.queue.length } else s
  let s2 := { s1 with paused := false }
  let wasPaused : Bool := s2.startCount != some s2.queue.length
  { s2 with log := s2.log ++ [Event.onStart s2.options.startCount wasPaused] }

/-- `FuncStack.prototype.start`. -/
def start (s : FuncStack) : Outcome Unit :=
  let s3 := startPrologue s
  let s4 := if s3.options.manualConsume then s3 else _consume s3
  _check s4 none none none

/-- `FuncStack.prototype.stop`. -/
def stop (s : FuncStack) : FuncStack := { s with paused := true }

/-- `FuncStack.prototype.isStopped`. -/
def isStopped (s : FuncStack) : Bool := s.paused

/-- `FuncStack.prototype.cancel`; the returned value is null (`none`), false or true. -/
def cancel (s : FuncStack) (id : Ident) (validateFn : Option (FnInfoObject → Bool)) :
    Outcome (Option Bool) :=
  match get s id with
  | none => ⟨s, .ok none⟩
  | some fnInfo =>
    if fnInfo.state != ENUM_STATUS_WORKING then ⟨s, .ok none⟩
    else
      let rejected : Bool := match validateFn with
        | none => false
        | some v => !v fnInfo
      if rejected then ⟨s, .ok (some false)⟩
      else
        let r := _check s (some ⟨CANCELED, .undefined⟩) (some fnInfo.fn) (some fnInfo.stack)
        match r.result with
        | .ok _ => ⟨r.state, .ok (some true)⟩
        | .error e => ⟨r.state, .error e⟩

/-- `FuncStack.prototype.restart`.  After the counter is incremented, line 394 calls
`this._data.working.combine`; arrays have no method of that name and the file supplies
none (it supplies `bind` and `isArray` only), so the call raises a TypeError and the
rest of the body (the sort, `_gc`, the re-arming of the queue and `start`) is not
reached. -/
def restart (s : FuncStack) (_excludeErrors : Bool) : Outcome Unit :=
  ⟨{ s with restarted := s.restarted + 1 }, .error .typeError⟩

/-- `FuncStack.prototype._gc`.  The file is strict code and the loop variable of
`for (i in this._data)` is declared nowhere, so the first assignment to it raises a
ReferenceError; `_data` always has keys, hence nothing is reset. -/
def _gc (s : FuncStack) (_ignoreInternal : Bool) : Outcome Unit :=
  ⟨s, .error .referenceError⟩

/-- `FuncStack.prototype.clear`. -/
def clear (s : FuncStack) : Outcome Unit := _gc s false

/-! ## Sample function objects and runs -/

/-- The function `abc` of the test snippets. -/
def abc : Fn := ⟨0, "abc"⟩
/-- The function `def` of the test snippets. -/
def def_ : Fn := ⟨1, "def"⟩
/-- The function `ghi` of the test snippets. -/
def ghi : Fn := ⟨2, "ghi"⟩
/-- The function `jkl` of the test snippets. -/
def jkl : Fn := ⟨3, "jkl"⟩

/-- A task body that returns nothing and does not call `preventDefault`. -/
def plainRun : TaskRun := ⟨false, .returns .undefined⟩
/-- A task body that calls `preventDefault` and returns. -/
def waitingRun : TaskRun := ⟨true, .returns .undefined⟩

/-- `new FuncStack(options, fns)` for an array of functions. -/
def construct (options : Options) (fns : List Fn) : FuncStack :=
  (add (fresh options) (.array (fns.map AddItem.fn)) none).state

/-! ## Invariant and transition relation -/

/-- The relation between working and the queue modes recorded on the function objects:
working holds only async functions, or exactly one function, which is a defer one. -/
def barrierExclusive (s : FuncStack) : Prop :=
  (∀ f ∈ s.working, s.queueModeOf f = some QueueMode.async) ∨
  (s.working.length = 1 ∧ ∀ f ∈ s.working, s.queueModeOf f = some QueueMode.defer)

instance (s : FuncStack) : Decidable (barrierExclusive s) := by
  unfold barrierExclusive; infer_instance

/-- The function objects an array element carries. -/
def AddItem.fns : AddItem → List Fn
  | .fn f => [f]
  | .obj _ (some f) => [f]
  | .obj _ none => []
  | .nullish => []

/-- The function objects the first argument of `add` carries. -/
def AddArg.fns : AddArg → List Fn
  | .func f => [f]
  | .array items => items.flatMap AddItem.fns
  | .other => []

/-- One call from outside into the store: `add`, `push`, `start`, `stop`, `_consume`, the
firing of a scheduled wrapper, a resolver call, `cancel`.  The two registering calls are
restricted to function objects that are not in working at the time of the call; resolver
calls are allowed for every function object, which is more than the environment can do. -/
inductive Step : FuncStack → FuncStack → Prop
  | add (s : FuncStack) (arg : AddArg) (mode : Option QueueMode)
      (h : ∀ f ∈ arg.fns, f ∉ s.working) : Step s (add s arg mode).state
  | push (s : FuncStack) (arg : AddArg) (mode : Option QueueMode)
      (h : ∀ f ∈ arg.fns, f ∉ s.working) : Step s (push s arg mode).state
  | start (s : FuncStack) : Step s (start s).state
  | stop (s : FuncStack) : Step s (stop s)
  | consume (s : FuncStack) : Step s (_consume s)
  | fire (s : FuncStack) (run : TaskRun) : Step s (fireTimer s run).state
  | resolve (s : FuncStack) (f : Fn) (status : ResolveArg) (result : JsVal) :
      Step s (resolveFn s f status result).state
  | cancel (s : FuncStack) (id : Ident) (validateFn : Option (FnInfoObject → Bool)) :
      Step s (cancel s id validateFn).state

/-- The states reachable from a freshly constructed store with the given options. -/
inductive Reachable (options : Options) : FuncStack → Prop
  | init : Reachable options (fresh options)
  | step {s t : FuncStack} : Reachable options s → Step s t → Reachable options t

/-- The store after the first `k` functions of the queue have been admitted: they leave
the queue, join working at its end in the same order, and a wrapper is scheduled for
each. -/
def moved (s : FuncStack) (k : Nat) : FuncStack :=
  { s with queue := s.queue.drop k, working := s.working ++ s.queue.take k,
           timers := s.timers ++ s.queue.take k }

/-- Every function in the queue has a queue mode recorded on it. -/
def modesDefined (s : FuncStack) : Prop :=
  ∀ f ∈ s.queue, (s.queueModeOf f).isSome = true

/-- The invariant carried along the transitions. -/
def Inv (s : FuncStack) : Prop := barrierExclusive s ∧ modesDefined s

/-- The run `new FuncStack(null, [abc, def]).start()` followed by `add([def], 'defer')`:
`def` is registered again while it is in working next to `abc`. -/
def reAddedInFlight : FuncStack :=
  (add (start (construct {} [abc, def_])).state (.array [.fn def_]) (some .defer)).state

/-- The run `new FuncStack().add([a]).add([b], 'defer').add([c]).start()`. -/
def barrierScenario (a b c : Fn) : FuncStack :=
  (start (add (add (add (fresh {}) (.array [.fn a]) none).state
    (.array [.fn b]) (some .defer)).state (.array [.fn c]) none).state).state

/-- The status object `_check` builds for the notification `n` and the function `f`: the
counts are those of the store at the entry of `_check`. -/
def snapshot (s : FuncStack) (n : StatusNotificationObject) (f : Fn) : StatusObject :=
  ⟨n.status, n.result, s.queueModeOf f, countsOf s⟩

/-- The scenario after the outcome `st1` of `a` has been delivered through its resolver. -/
def afterFirst (a b c : Fn) (st1 r1 : JsVal) : FuncStack :=
  (resolveFn (barrierScenario a b c) a (.value st1) r1).state

/-- The scenario after the outcome `st2` of `b` has been delivered as well. -/
def afterSecond (a b c : Fn) (st1 r1 st2 r2 : JsVal) : FuncStack :=
  (resolveFn (afterFirst a b c st1 r1) b (.value st2) r2).state

/-- The run `new FuncStack(null, [abc, def]).start()`, then `add([ghi])` and
`add([def], 'defer')`: `def` is in working next to `abc` and now carries the defer
mode, and `ghi` heads the queue. -/
def barrierInFlightWithPending : FuncStack :=
  (add (add (start (construct {} [abc, def_])).state (.array [.fn ghi]) none).state
    (.array [.fn def_]) (some .defer)).state

/-- The run `new FuncStack(null, [abc]).start()`. -/
def startedOne : FuncStack := (start (construct {} [abc])).state

/-- After `startedOne`: `cancel(abc)` before the scheduled wrapper of `abc` fires, then
the wrapper fires and `abc` returns normally. -/
def canceledThenRun : FuncStack :=
  (fireTimer (cancel startedOne (.fn abc) none).state plainRun).state

/-- After `startedOne`: the wrapper fires, `abc` calls `preventDefault` and returns, and
later calls its resolver with `'success'`. -/
def resolvedOnce : FuncStack :=
  (resolveFn (fireTimer startedOne waitingRun).state abc (.value SUCCESS) .undefined).state

/-- After `resolvedOnce`: `abc` calls its resolver a second time. -/
def resolvedTwice : Outcome Bool := resolveFn resolvedOnce abc (.value SUCCESS) .undefined

/-- After `startedOne`: the wrapper fires and `abc` returns the number 0. -/
def zeroReturned : FuncStack := (fireTimer startedOne ⟨false, .returns (.num 0)⟩).state

/-- After `startedOne`: the wrapper fires and `abc` throws null. -/
def nullThrown : FuncStack := (fireTimer startedOne ⟨false, .throws .null⟩).state

/-- After `startedOne`: the wrapper fires, `abc` calls `preventDefault` and throws null. -/
def nullThrownWaiting : FuncStack := (fireTimer startedOne ⟨true, .throws .null⟩).state

/-- The run `new FuncStack(null, [abc, def, ghi]).start()` in which every task calls
`preventDefault` and returns, the three wrappers having fired. -/
def threeWaiting : FuncStack :=
  (fireTimer (fireTimer (fireTimer (start (construct {} [abc, def_, ghi])).state
    waitingRun).state waitingRun).state waitingRun).state

/-- After `threeWaiting`: the resolvers are called with `'success'` in the order ghi, def,
abc. -/
def resolvedInReverse : FuncStack :=
  (resolveFn (resolveFn (resolveFn threeWaiting ghi (.value SUCCESS) .undefined).state
    def_ (.value SUCCESS) .undefined).state abc (.value SUCCESS) .undefined).state

/-- The number `nowLeft` of `_check`: tasks in working or in the queue. -/
def remaining (s : FuncStack) : Nat := s.working.length + s.queue.length

/-- Whether an observer invocation is one of the completion observer. -/
def Event.isCompleted : Event → Bool
  | .onCompleted _ => true
  | _ => false

/-- How often the completion observer has been invoked so far. -/
def completions (s : FuncStack) : Nat := s.log.countP Event.isCompleted

/-- A stretch of a run in which nothing happens but deliveries of terminal outcomes
(success or error) through the resolvers of tasks that are in working. -/
inductive Deliveries : FuncStack → FuncStack → Prop
  | done (s : FuncStack) : Deliveries s s
  | deliver (s t : FuncStack) (f : Fn) (st r : JsVal) (hf : f ∈ s.working)
      (hst : st = SUCCESS ∨ st = ERROR)
      (rest : Deliveries (resolveFn s f (.value st) r).state t) : Deliveries s t

/-- After `startedOne`: the wrapper fires and `abc` returns normally. -/
def plainFinished : FuncStack := (fireTimer startedOne plainRun).state

/-- The position of an array among the keys of `_data`, which is the order in which `get`
visits them. -/
def StackName.rank : StackName → Nat
  | .queue => 0
  | .working => 1
  | .done => 2
  | .error => 3

/-- The function objects that the loop of `add` registers for an array: those of the
elements before the first element on which the loop raises. -/
def registeredFns : List AddItem → List Fn
  | [] => []
  | .fn f :: rest => f :: registeredFns rest
  | .obj _ (some f) :: rest => f :: registeredFns rest
  | .obj _ none :: _ => []
  | .nullish :: _ => []

/-- The queue mode line 125 records for a call of `add` with the given mode argument. -/
def assignedMode (o : Options) (queueMode : Option QueueMode) : QueueMode :=
  if o.enforceDefaultQueueMode then o.defaultQueueMode else queueMode.getD o.defaultQueueMode

/-- The function an array element carries, if any. -/
def AddItem.task : AddItem → Option Fn
  | .fn f => some f
  | .obj _ of => of
  | .nullish => none

/-- Whether line 127 calls `unshift` for an array element: for a function the configured
`addMode` decides, for an object its own `addMode` property, an absent one being
falsy. -/
def AddItem.placedTop (o : Options) : AddItem → Bool
  | .fn _ => o.addMode.truthy
  | .obj (some m) _ => m.truthy
  | .obj none _ => false
  | .nullish => false

/-- The functions of the elements placed at the top, in array order. -/
def topFns (o : Options) (items : List AddItem) : List Fn :=
  items.filterMap fun it => if it.placedTop o then it.task else none

/-- The functions of the elements placed at the bottom, in array order. -/
def bottomFns (o : Options) (items : List AddItem) : List Fn :=
  items.filterMap fun it => if it.placedTop o then none else it.task

/-- The store `new FuncStack({addMode: TOP}, [abc])` after `add([{fn: def}])`, an element
that carries no addMode. -/
def omittedPlacement : FuncStack :=
  (add (construct { addMode := .top } [abc]) (.array [.obj none (some def_)]) none).state

/-- After `threeWaiting`: `abc` calls its resolver with `'success'`. -/
def firstOfThreeResolved : FuncStack :=
  (resolveFn threeWaiting abc (.value SUCCESS) .undefined).state

/-- After `firstOfThreeResolved`: `abc` calls its resolver a second time. -/
def firstOfThreeResolvedAgain : Outcome Bool :=
  resolveFn firstOfThreeResolved abc (.value SUCCESS) .undefined

/-- An anonymous function: its `name` is the empty string. -/
def anonymousFn : Fn := ⟨4, ""⟩

/-- A function whose `name` is the string `1`. -/
def namedOne : Fn := ⟨5, "1"⟩

/-- The store `new FuncStack(null, [abc, anonymousFn, namedOne])`: the ids are 0, 1, 2. -/
def numericNameStore : FuncStack := construct {} [abc, anonymousFn, namedOne]

/-! ## Theorems -/

/-- The loop of `add` over an array of functions returns normally, advances the counter
by the length of the array, leaves the ids of other functions alone, and numbers the
functions of a duplicate-free array consecutively. -/
theorem addLoop_fns (mode : Option QueueMode) (fs : List Fn) :
    ∀ s : FuncStack,
      (addLoop mode s (fs.map AddItem.fn)).result = .ok () ∧
      (addLoop mode s (fs.map AddItem.fn)).state.fnCount = s.fnCount + fs.length ∧
      (∀ g, g ∉ fs → (addLoop mode s (fs.map AddItem.fn)).state.fnCountOf g = s.fnCountOf g) ∧
      (fs.Nodup → ∀ i (h : i < fs.length),
        (addLoop mode s (fs.map AddItem.fn)).state.fnCountOf (fs.get ⟨i, h⟩)
          = some (s.fnCount + i)) := by
  induction fs with
  | nil => intro s; simp [addLoop]
  | cons f rest ih =>
    intro s
    obtain ⟨h1, h2, h3, h4⟩ := ih (register s mode (some s.options.addMode) f)
    simp only [List.map_cons, addLoop]
    refine ⟨h1, ?_, ?_, ?_⟩
    · rw [h2]; simp [register]; omega
    · intro g hg
      have hg1 : g ≠ f := fun h => hg (by simp [h])
      have hg2 : g ∉ rest := fun h => hg (by simp [h])
      rw [h3 g hg2]; simp [register, hg1]
    · intro hnd i hi
      have hnd1 : f ∉ rest := (List.nodup_cons.mp hnd).1
      have hnd2 : rest.Nodup := (List.nodup_cons.mp hnd).2
      cases i with
      | zero =>
        simp only [List.get_eq_getElem, List.getElem_cons_zero]
        rw [h3 f hnd1]; simp [register]
      | succ j =>
        have hj : j < rest.length := by simpa using hi
        have := h4 hnd2 j hj
        simp only [List.get_eq_getElem, List.getElem_cons_succ] at this ⊢
        rw [this]; simp [register]; omega

/-- C1, evaluated on the code: `add` called with a single function leaves every store as
it was and returns normally, so the function is not registered; on a fresh store
`add(function abc())` ends with `length() = 0` and an empty pending queue, where the
claim expects 1 and `[abc]`. -/
theorem add_single_function_registers_nothing (s : FuncStack) (f : Fn)
    (mode : Option QueueMode) :
    (add s (.func f) mode).state = s ∧ (add s (.func f) mode).result = .ok () ∧
    length (add (fresh {}) (.func abc) none).state = 0 ∧
    (add (fresh {}) (.func abc) none).state.queue = [] :=
  ⟨rfl, rfl, rfl, rfl⟩

/-- C2, evaluated on the code: `push` called with a function leaves every store as it was
and returns `length() - 1`; on a fresh store it returns -1, pending stays empty and `get`
finds nothing under the returned id, where the claim expects 0 and a descriptor of the
function. -/
theorem push_single_function_returns_previous_id (s : FuncStack) (f : Fn)
    (mode : Option QueueMode) :
    (push s (.func f) mode).state = s ∧
    (push s (.func f) mode).result = .ok ((length s : Int) - 1) ∧
    (push (fresh {}) (.func abc) none).result = .ok (-1) ∧
    (push (fresh {}) (.func abc) none).state.queue = [] ∧
    get (push (fresh {}) (.func abc) none).state (.num (-1)) = none :=
  ⟨rfl, rfl, rfl, rfl, rfl⟩

/-- C3: `add` called with an array of n pairwise distinct functions returns normally,
gives the i-th function the id `length() + i` (so the ids handed out lie between the
old and the new `length()` and increase strictly along the array), and `length()` grows
by exactly n. -/
theorem add_array_assigns_consecutive_ids (s : FuncStack) (fs : List Fn)
    (mode : Option QueueMode) (hd : fs.Nodup) :
    (add s (.array (fs.map AddItem.fn)) mode).result = .ok () ∧
    length (add s (.array (fs.map AddItem.fn)) mode).state = length s + fs.length ∧
    (∀ i (h : i < fs.length),
      (add s (.array (fs.map AddItem.fn)) mode).state.fnCountOf (fs.get ⟨i, h⟩)
        = some (length s + i)) ∧
    (∀ i j (hi : i < fs.length) (hj : j < fs.length), i < j →
      ∃ a b, (add s (.array (fs.map AddItem.fn)) mode).state.fnCountOf (fs.get ⟨i, hi⟩) = some a ∧
        (add s (.array (fs.map AddItem.fn)) mode).state.fnCountOf (fs.get ⟨j, hj⟩) = some b ∧
        length s ≤ a ∧ a < b ∧ b < length (add s (.array (fs.map AddItem.fn)) mode).state) := by
  obtain ⟨h1, h2, _, h4⟩ := addLoop_fns mode fs s
  refine ⟨h1, h2, h4 hd, ?_⟩
  intro i j hi hj hij
  refine ⟨length s + i, length s + j, h4 hd i hi, h4 hd j hj, ?_, ?_, ?_⟩
  · omega
  · omega
  · show length s + j < (addLoop mode s (fs.map AddItem.fn)).state.fnCount
    rw [h2]; simp only [length]; omega

/-- Witness for C3: the array `[abc, def]` added to a store that already holds `ghi`. -/
theorem add_array_assigns_consecutive_ids_witness :
    [abc, def_].Nodup ∧
    (add (construct {} [ghi]) (.array ([abc, def_].map AddItem.fn)) none).state.fnCountOf def_
      = some 2 := by
  refine ⟨by decide, ?_⟩
  have h := (add_array_assigns_consecutive_ids (construct {} [ghi]) [abc, def_] none
    (by decide)).2.2.1 1 (by decide)
  simpa using h

/-! ### Position lookup and removal -/

theorem indexOfFrom_not_mem (f : Fn) (l : List Fn) :
    ∀ pos, f ∉ l → indexOfFrom f l pos = -1 := by
  induction l with
  | nil => intro pos _; rfl
  | cons g rest ih =>
    intro pos h
    have h1 : g ≠ f := fun e => h (by simp [e])
    have h2 : f ∉ rest := fun e => h (by simp [e])
    simp [indexOfFrom, h1, ih (pos + 1) h2]

theorem indexOfFrom_mem (f : Fn) (l : List Fn) :
    ∀ pos, f ∈ l → ∃ i, indexOfFrom f l pos = ((pos + i : Nat) : Int) ∧ i < l.length ∧
      l.eraseIdx i = l.erase f := by
  induction l with
  | nil => intro pos h; simp at h
  | cons g rest ih =>
    intro pos h
    by_cases e : g = f
    · refine ⟨0, ?_, by simp, ?_⟩
      · simp [indexOfFrom, e]
      · simp [e]
    · have h2 : f ∈ rest := by
        rcases List.mem_cons.mp h with h | h
        · exact absurd h.symm e
        · exact h
      obtain ⟨i, hi1, hi2, hi3⟩ := ih (pos + 1) h2
      refine ⟨i + 1, ?_, by simpa using hi2, ?_⟩
      · simp only [indexOfFrom, e, if_false, hi1]; congr 1; omega
      · simp [List.eraseIdx_cons_succ, hi3, List.erase_cons, e]

/-- The removal of `_check` when the function is in the array: its first occurrence is
erased. -/
theorem splice1_indexOf_mem (l : List Fn) (f : Fn) (h : f ∈ l) :
    splice1 l (indexOf l f) = l.erase f := by
  obtain ⟨i, hi1, hi2, hi3⟩ := indexOfFrom_mem f l 0 h
  simp only [indexOf, hi1, splice1, Nat.zero_add]
  have h0 : ¬ ((i : Int) < 0) := by omega
  have h1 : min (i : Int) (l.length : Int) = (i : Int) := by omega
  simp [h0, h1, hi3]

/-- The removal of `_check` when the function is not in the array: `indexOf` is -1 and
`splice(-1, 1)` removes the last element. -/
theorem splice1_indexOf_not_mem (l : List Fn) (f : Fn) (h : f ∉ l) :
    splice1 l (indexOf l f) = l.dropLast := by
  simp only [indexOf, indexOfFrom_not_mem f l 0 h, splice1]
  cases hl : l.length with
  | zero =>
    have : l = [] := List.length_eq_zero.mp hl
    subst this; simp
  | succ n =>
    have h1 : max (((n + 1 : Nat) : Int) + -1) 0 = (n : Int) := by omega
    simp only [show ((-1 : Int) < 0) from by decide, if_true, h1, Int.toNat_ofNat]
    exact (List.dropLast_eq_eraseIdx (by omega)).symm

theorem splice1_sublist (l : List Fn) (i : Int) : (splice1 l i).Sublist l := by
  simp only [splice1]; exact List.eraseIdx_sublist _ _

/-! ### The admission loop -/

theorem moved_zero (s : FuncStack) : moved s 0 = s := by
  cases s; simp [moved]

theorem moved_succ (s : FuncStack) (fn : Fn) (rest : List Fn) (h : s.queue = fn :: rest)
    (j : Nat) :
    moved { s with queue := rest, working := s.working ++ [fn], timers := s.timers ++ [fn] } j
      = moved s (j + 1) := by
  simp [moved, h]

theorem _consumeCheck_cons (s : FuncStack) (q0 : Fn) (rest : List Fn) (h : s.queue = q0 :: rest) :
    ∃ b, _consumeCheck s = .ok b := by
  simp [_consumeCheck, h]

theorem consumeLoop_spec : ∀ (n : Nat) (s : FuncStack),
    ∃ k, k ≤ n ∧ k ≤ s.queue.length ∧ consumeLoop n s = moved s k ∧
      (∀ i, i < k → _consumeCheck (moved s i) = .ok true) ∧
      (k = n ∨ (moved s k).queue = [] ∨ _consumeCheck (moved s k) = .ok false) := by
  intro n
  induction n with
  | zero =>
    intro s
    exact ⟨0, le_refl _, Nat.zero_le _, by simp [consumeLoop, moved_zero], by simp, Or.inl rfl⟩
  | succ n ih =>
    intro s
    cases hq : s.queue with
    | nil =>
      refine ⟨0, Nat.zero_le _, Nat.zero_le _, ?_, by simp, Or.inr (Or.inl ?_)⟩
      · simp [consumeLoop, hq, moved_zero]
      · simp [moved_zero, hq]
    | cons fn rest =>
      obtain ⟨b, hb⟩ := _consumeCheck_cons s fn rest hq
      cases b with
      | false =>
        refine ⟨0, Nat.zero_le _, Nat.zero_le _, ?_, by simp, Or.inr (Or.inr ?_)⟩
        · simp [consumeLoop, hq, hb, moved_zero]
        · simp [moved_zero, hb]
      | true =>
        obtain ⟨k, hk1, hk2, hk3, hk4, hk5⟩ := ih
          { s with queue := rest, working := s.working ++ [fn], timers := s.timers ++ [fn] }
        refine ⟨k + 1, by omega, by simpa using hk2, ?_, ?_, ?_⟩
        · simp only [consumeLoop, hq, hb]
          rw [hk3, moved_succ s fn rest hq]
        · intro i hi
          cases i with
          | zero => simpa [moved_zero] using hb
          | succ j =>
            rw [← moved_succ s fn rest hq]
            exact hk4 j (by omega)
        · rw [← moved_succ s fn rest hq]
          rcases hk5 with h | h | h
          · exact Or.inl (by omega)
          · exact Or.inr (Or.inl h)
          · exact Or.inr (Or.inr h)

/-- What `_consume` does on a store that is not paused. -/
theorem _consume_spec (s : FuncStack) (hp : s.paused = false) :
    ∃ k, k ≤ s.queue.length ∧ _consume s = moved s k ∧
      (∀ i, i < k → _consumeCheck (moved s i) = .ok true) ∧
      ((moved s k).queue = [] ∨ _consumeCheck (moved s k) = .ok false) := by
  obtain ⟨k, _, hk2, hk3, hk4, hk5⟩ := consumeLoop_spec s.queue.length s
  refine ⟨k, hk2, by simp [_consume, hp, hk3], hk4, ?_⟩
  rcases hk5 with h | h | h
  · left; simp [moved, h]
  · exact Or.inl h
  · exact Or.inr h

/-! ### The invariant is preserved -/

theorem inv_congr {s t : FuncStack} (hw : t.working = s.working) (hq : t.queue = s.queue)
    (hm : t.queueModeOf = s.queueModeOf) (h : Inv s) : Inv t := by
  simpa [Inv, barrierExclusive, modesDefined, hw, hq, hm] using h

theorem inv_shrink {s t : FuncStack} (hw : t.working.Sublist s.working)
    (hq : t.queue.Sublist s.queue) (hm : t.queueModeOf = s.queueModeOf) (h : Inv s) : Inv t := by
  obtain ⟨hb, hd⟩ := h
  refine ⟨?_, ?_⟩
  · rcases hb with hb | ⟨hl, hb⟩
    · left; intro f hf; rw [hm]; exact hb f (hw.subset hf)
    · have hlen := hw.length_le
      rcases Nat.lt_or_ge t.working.length 1 with h0 | h1
      · left; intro f hf
        have : t.working = [] := List.length_eq_zero.mp (by omega)
        rw [this] at hf; simp at hf
      · right; refine ⟨by omega, ?_⟩
        intro f hf; rw [hm]; exact hb f (hw.subset hf)
  · intro f hf; rw [hm]; exact hd f (hq.subset hf)

theorem inv_fresh (o : Options) : Inv (fresh o) := by
  refine ⟨Or.inl ?_, ?_⟩
  · intro f hf; simp [fresh] at hf
  · intro f hf; simp [fresh] at hf

theorem inv_admit_one (s : FuncStack) (fn : Fn) (rest : List Fn) (hq : s.queue = fn :: rest)
    (hc : _consumeCheck s = .ok true) (h : Inv s) :
    Inv { s with queue := rest, working := s.working ++ [fn], timers := s.timers ++ [fn] } := by
  obtain ⟨hb, hd⟩ := h
  have hfn : (s.queueModeOf fn).isSome = true := hd fn (by simp [hq])
  refine ⟨?_, ?_⟩
  · cases hw : s.working with
    | nil =>
      cases hm : s.queueModeOf fn with
      | none => simp [hm] at hfn
      | some m =>
        cases m with
        | async => left; intro f hf; simp at hf; simp [hf, hm]
        | defer => right; refine ⟨by simp, ?_⟩; intro f hf; simp at hf; simp [hf, hm]
    | cons w0 ws =>
      simp [_consumeCheck, hq, hw] at hc
      left
      rcases hb with hb | ⟨hl, hb⟩
      · intro f hf
        simp only [List.mem_append, List.mem_singleton] at hf
        rcases hf with hf | hf
        · exact hb f (by rw [hw]; exact hf)
        · rw [hf]; exact hc.1
      · have := hb w0 (by simp [hw])
        rw [hc.2] at this; cases this
  · intro f hf
    exact hd f (by rw [hq]; exact List.mem_cons_of_mem _ hf)

theorem inv_consumeLoop : ∀ (n : Nat) (s : FuncStack), Inv s → Inv (consumeLoop n s) := by
  intro n
  induction n with
  | zero => intro s h; simpa [consumeLoop] using h
  | succ n ih =>
    intro s h
    cases hq : s.queue with
    | nil => simpa [consumeLoop, hq] using h
    | cons fn rest =>
      obtain ⟨b, hb⟩ := _consumeCheck_cons s fn rest hq
      cases b with
      | false => simpa [consumeLoop, hq, hb] using h
      | true =>
        simp only [consumeLoop, hq, hb]
        exact ih _ (inv_admit_one s fn rest hq hb h)

theorem inv_consume (s : FuncStack) (h : Inv s) : Inv (_consume s) := by
  unfold _consume
  split
  · exact h
  · exact inv_consumeLoop _ _ h

theorem inv_checkCompleted (s : FuncStack) (st : StatusObject) (h : Inv s) :
    Inv (checkCompleted s st) := by
  unfold checkCompleted
  simp only
  split
  · exact inv_congr rfl rfl rfl h
  · exact h

theorem inv_afterSwitch (s : FuncStack) (st : StatusObject) (n : Option StackName)
    (h : Inv s) : Inv (afterSwitch s st n) := by
  unfold afterSwitch
  cases n with
  | some _ => exact h
  | none =>
    simp only
    apply inv_checkCompleted
    split
    · exact h
    · exact inv_consume s h

theorem inv_setStack_splice (s : FuncStack) (n : StackName) (i : Int) (h : Inv s) :
    Inv (setStack s n (splice1 (stack s n) i)) := by
  cases n with
  | queue => exact @inv_shrink s _ (List.Sublist.refl _) (splice1_sublist _ _) rfl h
  | working => exact @inv_shrink s _ (splice1_sublist _ _) (List.Sublist.refl _) rfl h
  | done => exact inv_congr rfl rfl rfl h
  | error => exact inv_congr rfl rfl rfl h

theorem inv_check (s : FuncStack) (n : Option StatusNotificationObject) (c : Option Fn)
    (st : Option StackName) (h : Inv s) : Inv (_check s n c st).state := by
  unfold _check
  cases c with
  | none => exact inv_checkCompleted _ _ h
  | some f =>
    have h1 : Inv (removed s st f) := inv_setStack_splice s _ _ h
    simp only
    split
    · exact inv_afterSwitch _ _ _ (inv_congr rfl rfl rfl h1)
    · split
      · exact inv_afterSwitch _ _ _ (inv_congr rfl rfl rfl h1)
      · exact inv_congr rfl rfl rfl h1

theorem inv_resolveFn (s : FuncStack) (f : Fn) (a : ResolveArg) (r : JsVal) (h : Inv s) :
    Inv (resolveFn s f a r).state := by
  unfold resolveFn
  cases get s (.fn f) with
  | none => exact h
  | some info =>
    simp only
    split
    · exact h
    · have := inv_check s (some (match a with
        | .notification n => n
        | .value v => ⟨v, r⟩)) (some f) none h
      split <;> exact this

theorem inv_fnWrapper (s : FuncStack) (f : Fn) (run : TaskRun) (h : Inv s) :
    Inv (fnWrapper s f run).state := by
  unfold fnWrapper
  simp only
  split
  · have := inv_resolveFn s f
      (.value (if !(match run.completion with
        | .returns _ => JsVal.undefined
        | .throws e => e).truthy then SUCCESS else ERROR))
      ((match run.completion with
        | .returns v => v
        | .throws _ => JsVal.undefined).or (match run.completion with
        | .returns _ => JsVal.undefined
        | .throws e => e)) h
    split <;> exact this
  · exact h

theorem inv_fireTimer (s : FuncStack) (run : TaskRun) (h : Inv s) :
    Inv (fireTimer s run).state := by
  unfold fireTimer
  split
  · exact h
  · exact inv_fnWrapper _ _ _ (inv_congr rfl rfl rfl h)

theorem startPrologue_fields (s : FuncStack) :
    (startPrologue s).queue = s.queue ∧ (startPrologue s).working = s.working ∧
    (startPrologue s).done = s.done ∧ (startPrologue s).error = s.error ∧
    (startPrologue s).paused = false ∧ (startPrologue s).options = s.options ∧
    (startPrologue s).queueModeOf = s.queueModeOf ∧
    (startPrologue s).fnCountOf = s.fnCountOf ∧ (startPrologue s).fnCount = s.fnCount ∧
    (startPrologue s).timers = s.timers ∧
    ∃ w, (startPrologue s).log = s.log ++ [Event.onStart s.options.startCount w] := by
  unfold startPrologue
  by_cases h : s.startCount.isNone = true
  · rw [if_pos h]
    exact ⟨rfl, rfl, rfl, rfl, rfl, rfl, rfl, rfl, rfl, rfl, _, rfl⟩
  · rw [if_neg h]
    exact ⟨rfl, rfl, rfl, rfl, rfl, rfl, rfl, rfl, rfl, rfl, _, rfl⟩

theorem inv_start (s : FuncStack) (h : Inv s) : Inv (start s).state := by
  obtain ⟨h1, h2, _, _, _, _, h7, _⟩ := startPrologue_fields s
  have h3 : Inv (startPrologue s) := inv_congr h2 h1 h7 h
  unfold start
  apply inv_check
  split
  · exact h3
  · exact inv_consume _ h3

theorem inv_cancel (s : FuncStack) (id : Ident) (v : Option (FnInfoObject → Bool)) (h : Inv s) :
    Inv (cancel s id v).state := by
  unfold cancel
  cases get s id with
  | none => exact h
  | some info =>
    simp only
    split
    · exact h
    · split
      · exact h
      · have := inv_check s (some ⟨CANCELED, .undefined⟩) (some info.fn) (some info.stack) h
        split <;> exact this

theorem inv_register (s : FuncStack) (qm : Option QueueMode) (m : Option AddMode) (f : Fn)
    (hf : f ∉ s.working) (h : Inv s) : Inv (register s qm m f) := by
  obtain ⟨hb, hd⟩ := h
  have key : ∀ g ∈ s.working, (register s qm m f).queueModeOf g = s.queueModeOf g := by
    intro g hg
    have : g ≠ f := fun e => hf (e ▸ hg)
    simp [register, this]
  refine ⟨?_, ?_⟩
  · rcases hb with hb | ⟨hl, hb⟩
    · left; intro g hg
      have hg1 : g ∈ s.working := by simpa [register] using hg
      rw [key g hg1]; exact hb g hg1
    · right
      refine ⟨by simpa [register] using hl, ?_⟩
      intro g hg
      have hg1 : g ∈ s.working := by simpa [register] using hg
      rw [key g hg1]; exact hb g hg1
  · intro g hg
    by_cases e : g = f
    · simp [register, e]
    · have hg1 : g ∈ s.queue := by
        simp only [register] at hg
        split at hg
        · simpa [e] using hg
        · simpa [e] using hg
      simpa [register, e] using hd g hg1

theorem addLoop_working (qm : Option QueueMode) (items : List AddItem) :
    ∀ s : FuncStack, (addLoop qm s items).state.working = s.working := by
  induction items with
  | nil => intro s; rfl
  | cons it rest ih =>
    intro s
    cases it with
    | fn f => simp only [addLoop]; rw [ih]; rfl
    | obj m of =>
      cases of with
      | none => rfl
      | some f => simp only [addLoop]; rw [ih]; rfl
    | nullish => rfl

theorem inv_addLoop (qm : Option QueueMode) (items : List AddItem) :
    ∀ s : FuncStack, (∀ f ∈ items.flatMap AddItem.fns, f ∉ s.working) → Inv s →
      Inv (addLoop qm s items).state := by
  induction items with
  | nil => intro s _ h; exact h
  | cons it rest ih =>
    intro s hf h
    have hrest : ∀ t : FuncStack, t.working = s.working →
        ∀ f ∈ rest.flatMap AddItem.fns, f ∉ t.working := by
      intro t ht f hmem
      rw [ht]; exact hf f (by simp only [List.flatMap_cons, List.mem_append]; exact Or.inr hmem)
    cases it with
    | fn f =>
      simp only [addLoop]
      exact ih _ (hrest _ rfl) (inv_register s qm _ f (hf f (by simp [AddItem.fns])) h)
    | obj m of =>
      cases of with
      | none => exact h
      | some f =>
        simp only [addLoop]
        exact ih _ (hrest _ rfl) (inv_register s qm _ f (hf f (by simp [AddItem.fns])) h)
    | nullish => exact h

theorem inv_add (s : FuncStack) (arg : AddArg) (qm : Option QueueMode)
    (hf : ∀ f ∈ arg.fns, f ∉ s.working) (h : Inv s) : Inv (add s arg qm).state := by
  cases arg with
  | func f => exact h
  | array items => exact inv_addLoop qm items s hf h
  | other => exact h

theorem inv_push (s : FuncStack) (arg : AddArg) (qm : Option QueueMode)
    (hf : ∀ f ∈ arg.fns, f ∉ s.working) (h : Inv s) : Inv (push s arg qm).state := by
  have := inv_add s arg qm hf h
  unfold push
  simp only
  split <;> exact this

theorem inv_step {s t : FuncStack} (hs : Step s t) (h : Inv s) : Inv t := by
  cases hs with
  | add arg mode hf => exact inv_add s arg mode hf h
  | push arg mode hf => exact inv_push s arg mode hf h
  | start => exact inv_start s h
  | stop => exact inv_congr rfl rfl rfl h
  | consume => exact inv_consume s h
  | fire run => exact inv_fireTimer s run h
  | resolve f a r => exact inv_resolveFn s f a r h
  | cancel id v => exact inv_cancel s id v h

theorem inv_reachable {o : Options} {s : FuncStack} (h : Reachable o s) : Inv s := by
  induction h with
  | init => exact inv_fresh o
  | step _ hs ih => exact inv_step hs ih

/-- C5, evaluated on the code: after `new FuncStack(null, [abc, def]).start()` both
functions are in working; `add([def], 'defer')` then records the defer mode on `def`, so
working holds the async `abc` together with the defer `def`, against the comment of
line 41 (working may hold any amount of async items or one defer item). -/
theorem inFlight_mixed_after_reAdd :
    reAddedInFlight.working = [abc, def_] ∧
    reAddedInFlight.queueModeOf abc = some QueueMode.async ∧
    reAddedInFlight.queueModeOf def_ = some QueueMode.defer ∧
    ¬ barrierExclusive reAddedInFlight := by
  refine ⟨by decide, by decide, by decide, by decide⟩

/-- Where the invariant of line 41 does hold: in every state reachable from a freshly
constructed store by `add`, `push`, `start`, `stop`, `_consume`, wrapper runs, resolver
calls and `cancel`, where `add` and `push` are not handed a function object that is in
working at that time, working holds only async functions or exactly one defer function
and nothing else. -/
theorem inFlight_barrier_exclusive (options : Options) (s : FuncStack)
    (h : Reachable options s) : barrierExclusive s :=
  (inv_reachable h).1

/-- An instance of `inFlight_barrier_exclusive`: the state after
`new FuncStack(null, [abc, def]).start()`. -/
theorem inFlight_barrier_exclusive_witness :
    Reachable {} (start (construct {} [abc, def_])).state ∧
    barrierExclusive (start (construct {} [abc, def_])).state := by
  have hr : Reachable {} (start (construct {} [abc, def_])).state :=
    Reachable.step
      (Reachable.step Reachable.init
        (Step.add (fresh {}) (.array ([abc, def_].map AddItem.fn)) none
          (by intro f _; simp [fresh])))
      (Step.start _)
  exact ⟨hr, inFlight_barrier_exclusive {} _ hr⟩

/-- The test of `_consumeCheck` when the queue has a head. -/
theorem _consumeCheck_true_iff (t : FuncStack) (q0 : Fn) (rest : List Fn)
    (hq : t.queue = q0 :: rest) :
    _consumeCheck t = .ok true ↔
      (t.working = [] ∨
        (t.queueModeOf q0 = some QueueMode.async ∧
          ∃ w0 ws, t.working = w0 :: ws ∧ t.queueModeOf w0 = some QueueMode.async)) := by
  cases hw : t.working with
  | nil => simp [_consumeCheck, hq, hw]
  | cons w0 ws => simp [_consumeCheck, hq, hw]

/-- C6: on a paused store `_consume` changes nothing.  Otherwise there is a k, at most the
length of pending, such that afterwards pending has lost its first k elements, working has
gained them at its end in the same order (a wrapper being scheduled for each), done,
error and everything else are as before, the admission test held for each of the k
functions in the state in which it was moved, and afterwards pending is empty or the
admission test is false.  The admission test, taken with a non-empty pending, is true
exactly when working is empty or both the head of pending and the first element of
working are async. -/
theorem consume_admits_leading_tasks (s : FuncStack) :
    (s.paused = true → _consume s = s) ∧
    (s.paused = false → ∃ k, k ≤ s.queue.length ∧
      _consume s = moved s k ∧
      (_consume s).queue = s.queue.drop k ∧
      (_consume s).working = s.working ++ s.queue.take k ∧
      (_consume s).done = s.done ∧ (_consume s).error = s.error ∧
      (∀ i, i < k → _consumeCheck (moved s i) = .ok true) ∧
      ((_consume s).queue = [] ∨ _consumeCheck (_consume s) = .ok false)) ∧
    (∀ q0 rest, s.queue = q0 :: rest →
      (_consumeCheck s = .ok true ↔
        (s.working = [] ∨
          (s.queueModeOf q0 = some QueueMode.async ∧
            ∃ w0 ws, s.working = w0 :: ws ∧ s.queueModeOf w0 = some QueueMode.async)))) := by
  refine ⟨?_, ?_, ?_⟩
  · intro hp; simp [_consume, hp]
  · intro hp
    obtain ⟨k, hk1, hk2, hk3, hk4⟩ := _consume_spec s hp
    refine ⟨k, hk1, hk2, ?_, ?_, ?_, ?_, hk3, ?_⟩
    · rw [hk2]; rfl
    · rw [hk2]; rfl
    · rw [hk2]; rfl
    · rw [hk2]; rfl
    · rw [hk2]; exact hk4
  · intro q0 rest hq
    exact _consumeCheck_true_iff s q0 rest hq

/-- Witness for C6: the store `new FuncStack(null, [abc, def])` is not paused, and
`_consume` moves both functions into working. -/
theorem consume_admits_leading_tasks_witness :
    (construct {} [abc, def_]).paused = false ∧
    (_consume (construct {} [abc, def_])).working = [abc, def_] ∧
    ∃ k, k ≤ (construct {} [abc, def_]).queue.length ∧
      _consume (construct {} [abc, def_]) = moved (construct {} [abc, def_]) k := by
  obtain ⟨k, hk1, hk2, _⟩ := (consume_admits_leading_tasks (construct {} [abc, def_])).2.1 rfl
  exact ⟨rfl, by decide, k, hk1, hk2⟩

theorem barrierScenario_eq (a b c : Fn) (hab : a ≠ b) (hac : a ≠ c) (hbc : b ≠ c) :
    (barrierScenario a b c).working = [a] ∧ (barrierScenario a b c).queue = [b, c] ∧
    (barrierScenario a b c).done = [] ∧ (barrierScenario a b c).error = [] ∧
    (barrierScenario a b c).paused = false ∧
    (barrierScenario a b c).options = {} ∧
    (barrierScenario a b c).queueModeOf a = some QueueMode.async ∧
    (barrierScenario a b c).queueModeOf b = some QueueMode.defer ∧
    (barrierScenario a b c).queueModeOf c = some QueueMode.async := by
  have hba : b ≠ a := fun h => hab h.symm
  have hca : c ≠ a := fun h => hac h.symm
  have hcb : c ≠ b := fun h => hbc h.symm
  simp [barrierScenario, start, startPrologue, add, addLoop, register, fresh, _consume, consumeLoop,
    _consumeCheck, _check, checkCompleted, AddMode.truthy, hab, hac, hbc, hba, hca, hcb]

/-! ### Lookup and terminal transitions -/

theorem scanStack_isSome (s : FuncStack) (id : Ident) (n : StackName) (l : List Fn) :
    ∀ pos, (∃ g ∈ l, matchesId s id g = true) → (scanStack s id n l pos).isSome = true := by
  induction l with
  | nil => intro pos h; simp at h
  | cons f rest ih =>
    intro pos h
    by_cases hf : matchesId s id f = true
    · simp [scanStack, hf]
    · simp only [scanStack, hf]
      apply ih
      obtain ⟨g, hg, hm⟩ := h
      rcases List.mem_cons.mp hg with e | e
      · rw [e] at hm; exact absurd hm hf
      · exact ⟨g, e, hm⟩

theorem get_fn_isSome_of_working (s : FuncStack) (f : Fn) (h : f ∈ s.working) :
    (get s (.fn f)).isSome = true := by
  have hw := scanStack_isSome s (.fn f) .working s.working 0 ⟨f, h, by simp [matchesId]⟩
  unfold get
  cases scanStack s (.fn f) .queue s.queue 0 with
  | some i => rfl
  | none =>
    simp only
    cases hs : scanStack s (.fn f) .working s.working 0 with
    | some i => rfl
    | none => rw [hs] at hw; simp at hw

/-- A resolver call for a stored function always reaches `_check`: the guard of line 276
compares undefined with undefined. -/
theorem resolveFn_of_get (s : FuncStack) (f : Fn) (a : ResolveArg) (r : JsVal)
    (h : (get s (.fn f)).isSome = true) :
    (resolveFn s f a r).state =
      (_check s (some (match a with
        | .notification n => n
        | .value v => ⟨v, r⟩)) (some f) none).state ∧
    (resolveFn s f a r).result =
      (match (_check s (some (match a with
        | .notification n => n
        | .value v => ⟨v, r⟩)) (some f) none).result with
       | .ok _ => .ok true
       | .error e => .error e) := by
  unfold resolveFn
  cases hg : get s (.fn f) with
  | none => rw [hg] at h; simp at h
  | some info =>
    have hst : (info.state != ENUM_STATUS_WORKING) = false := by
      simp [FnInfoObject.state, ENUM_STATUS_WORKING]
    simp only [hst, Bool.false_eq_true, if_false]
    cases (_check s (some (match a with
        | .notification n => n
        | .value v => ⟨v, r⟩)) (some f) none).result <;> exact ⟨rfl, rfl⟩

theorem _check_inFlight_success (s : FuncStack) (n : StatusNotificationObject) (f : Fn)
    (hf : f ∈ s.working) (hs : n.status = SUCCESS) :
    _check s (some n) (some f) none =
      ⟨afterSwitch { s with working := s.working.erase f, done := s.done ++ [f],
                            log := s.log ++ [Event.onProgress (snapshot s n f) f] }
        (snapshot s n f) none, .ok ()⟩ := by
  simp [_check, hs, removed, pushDone, setStack, stack, splice1_indexOf_mem _ _ hf, snapshot]

theorem _check_inFlight_failure (s : FuncStack) (n : StatusNotificationObject) (f : Fn)
    (hf : f ∈ s.working) (hs : n.status = ERROR ∨ n.status = CANCELED) :
    _check s (some n) (some f) none =
      ⟨afterSwitch { s with working := s.working.erase f, error := s.error ++ [f],
                            log := s.log ++ [Event.onError (snapshot s n f) f] }
        (snapshot s n f) none, .ok ()⟩ := by
  have h1 : n.status ≠ SUCCESS := by
    rcases hs with h | h <;> rw [h] <;> decide
  have h2 : n.status = CANCELED ∨ n.status = ERROR := hs.symm
  simp [_check, h1, h2, removed, pushError, setStack, stack, splice1_indexOf_mem _ _ hf, snapshot]

/-! ### Admission and the barrier -/

theorem inv_moved : ∀ (i : Nat) (s : FuncStack), Inv s →
    (∀ j, j < i → _consumeCheck (moved s j) = .ok true) → i ≤ s.queue.length →
    Inv (moved s i) := by
  intro i
  induction i with
  | zero => intro s h _ _; rw [moved_zero]; exact h
  | succ i ih =>
    intro s h hc hl
    cases hq : s.queue with
    | nil => rw [hq] at hl; simp at hl
    | cons fn rest =>
      have h0 : _consumeCheck s = .ok true := by simpa [moved_zero] using hc 0 (by omega)
      rw [← moved_succ s fn rest hq]
      apply ih _ (inv_admit_one s fn rest hq h0 h)
      · intro j hj
        rw [moved_succ s fn rest hq]
        exact hc (j + 1) (by omega)
      · rw [hq] at hl; simpa using hl

/-- At the moment a function is admitted, a head that is not async finds working empty,
and in a state satisfying the invariant every function in working is async. -/
theorem admitted_safely (s : FuncStack) (i : Nat) (hi : i < s.queue.length)
    (hc : ∀ j, j ≤ i → _consumeCheck (moved s j) = .ok true) :
    (s.queueModeOf (s.queue.get ⟨i, hi⟩) ≠ some QueueMode.async → (moved s i).working = []) ∧
    (Inv s → ∀ g ∈ (moved s i).working, s.queueModeOf g = some QueueMode.async) := by
  have hq : (moved s i).queue = s.queue.get ⟨i, hi⟩ :: s.queue.drop (i + 1) := by
    simp only [moved, List.get_eq_getElem]
    exact List.drop_eq_getElem_cons hi
  have hchk := (_consumeCheck_true_iff (moved s i) _ _ hq).mp (hc i (le_refl _))
  have hmode : (moved s i).queueModeOf = s.queueModeOf := rfl
  rw [hmode] at hchk
  refine ⟨?_, ?_⟩
  · intro hne
    rcases hchk with h | ⟨h, _⟩
    · exact h
    · exact absurd h hne
  · intro hinv g hg
    have hinv2 : Inv (moved s i) :=
      inv_moved i s hinv (fun j hj => hc j (by omega)) (by omega)
    rcases hchk with h | ⟨_, w0, ws, hw, hw0⟩
    · rw [h] at hg; simp at hg
    · rcases hinv2.1 with hb | ⟨_, hb⟩
      · exact hb g hg
      · have := hb w0 (by rw [hw]; simp)
        rw [hmode, hw0] at this; cases this

theorem consume_blocked (s : FuncStack) (q0 w0 : Fn) (rest ws : List Fn)
    (hq : s.queue = q0 :: rest) (hw : s.working = w0 :: ws)
    (hb : ¬ (s.queueModeOf q0 = some QueueMode.async ∧ s.queueModeOf w0 = some QueueMode.async)) :
    _consume s = s := by
  have hc : _consumeCheck s = .ok false := by
    simp only [_consumeCheck, hq, hw]
    simp only [not_and] at hb
    by_cases h1 : s.queueModeOf q0 = some QueueMode.async
    · simp [h1, hb h1]
    · simp [h1]
  unfold _consume
  split
  · rfl
  · simp [hq, consumeLoop, hc]

theorem consumeLoop_stop (n : Nat) (t : FuncStack)
    (h : t.queue = [] ∨ _consumeCheck t = .ok false) : consumeLoop n t = t := by
  cases n with
  | zero => rfl
  | succ n =>
    cases hq : t.queue with
    | nil => simp [consumeLoop, hq]
    | cons q1 rest =>
      rcases h with h | h
      · rw [hq] at h; cases h
      · simp [consumeLoop, hq, h]

theorem consume_admit_one (s : FuncStack) (q0 : Fn) (rest : List Fn)
    (hp : s.paused = false) (hq : s.queue = q0 :: rest) (hw : s.working = [])
    (hb : rest = [] ∨ s.queueModeOf q0 ≠ some QueueMode.async) :
    _consume s = moved s 1 := by
  have hc : _consumeCheck s = .ok true := by simp [_consumeCheck, hq, hw]
  have hl : s.queue.length = rest.length + 1 := by simp [hq]
  unfold _consume
  rw [if_neg (by simp [hp]), hl]
  simp only [consumeLoop, hq, hc]
  rw [← moved_succ s q0 rest hq 0, moved_zero]
  apply consumeLoop_stop
  cases rest with
  | nil => exact Or.inl rfl
  | cons q1 rest2 =>
    right
    have hne : s.queueModeOf q0 ≠ some QueueMode.async := by
      rcases hb with h | h
      · cases h
      · exact h
    simp [_consumeCheck, hw, hne]

/-- The delivery of a terminal outcome for the only function in working, when the next
function in the queue is the last one or is not async: that function alone is admitted. -/
theorem resolve_then_admit_one (s : FuncStack) (f q0 : Fn) (rest : List Fn) (st r : JsVal)
    (hw : s.working = [f]) (hq : s.queue = q0 :: rest) (hp : s.paused = false)
    (hm : s.options.manualConsume = false) (hst : st = SUCCESS ∨ st = ERROR)
    (hb : rest = [] ∨ s.queueModeOf q0 ≠ some QueueMode.async) :
    (resolveFn s f (.value st) r).result = .ok true ∧
    (resolveFn s f (.value st) r).state.working = [q0] ∧
    (resolveFn s f (.value st) r).state.queue = rest ∧
    (resolveFn s f (.value st) r).state.paused = false ∧
    (resolveFn s f (.value st) r).state.options = s.options ∧
    (resolveFn s f (.value st) r).state.queueModeOf = s.queueModeOf := by
  have hf : f ∈ s.working := by simp [hw]
  obtain ⟨h1, h2⟩ := resolveFn_of_get s f (.value st) r (get_fn_isSome_of_working s f hf)
  rw [h1, h2]
  rcases hst with hs | hs
  · rw [_check_inFlight_success s ⟨st, r⟩ f hf hs]
    have hcons := consume_admit_one
      { s with working := s.working.erase f, done := s.done ++ [f],
               log := s.log ++ [Event.onProgress (snapshot s ⟨st, r⟩ f) f] }
      q0 rest hp hq (by simp [hw]) hb
    simp only [afterSwitch, hm, Bool.false_eq_true, if_false, hcons]
    simp [checkCompleted, moved, hw, hq, hp]
  · rw [_check_inFlight_failure s ⟨st, r⟩ f hf (Or.inl hs)]
    have hcons := consume_admit_one
      { s with working := s.working.erase f, error := s.error ++ [f],
               log := s.log ++ [Event.onError (snapshot s ⟨st, r⟩ f) f] }
      q0 rest hp hq (by simp [hw]) hb
    simp only [afterSwitch, hm, Bool.false_eq_true, if_false, hcons]
    simp [checkCompleted, moved, hw, hq, hp]

/-- C7, evaluated on the code: with `def` re-registered as a defer function while it is in
working next to `abc`, `_consumeCheck` looks at `working[0]` only and a call of
`_consume` admits `ghi` although a defer function is in working, against the comments
of lines 41 and 242 (if a defer is in working, wait). -/
theorem admits_beside_barrier_after_reAdd :
    barrierInFlightWithPending.working = [abc, def_] ∧
    barrierInFlightWithPending.queueModeOf def_ = some QueueMode.defer ∧
    barrierInFlightWithPending.queue = [ghi, def_] ∧
    (_consume barrierInFlightWithPending).working = [abc, def_, ghi] := by
  refine ⟨by decide, by decide, by decide, by decide⟩

theorem afterFirst_eq (a b c : Fn) (hab : a ≠ b) (hac : a ≠ c) (hbc : b ≠ c)
    (st1 r1 : JsVal) (h1 : st1 = SUCCESS ∨ st1 = ERROR) :
    (afterFirst a b c st1 r1).working = [b] ∧ (afterFirst a b c st1 r1).queue = [c] ∧
    (afterFirst a b c st1 r1).paused = false ∧
    (afterFirst a b c st1 r1).options = {} ∧
    (afterFirst a b c st1 r1).queueModeOf b = some QueueMode.defer := by
  obtain ⟨e1, e2, _, _, e5, e6, _, e8, _⟩ := barrierScenario_eq a b c hab hac hbc
  have hm : (barrierScenario a b c).options.manualConsume = false := by rw [e6]
  have hbn : (barrierScenario a b c).queueModeOf b ≠ some QueueMode.async := by
    rw [e8]; decide
  obtain ⟨_, f2, f3, f4, f5, f6⟩ :=
    resolve_then_admit_one (barrierScenario a b c) a b [c] st1 r1 e1 e2 e5 hm h1 (Or.inr hbn)
  unfold afterFirst
  refine ⟨f2, f3, f4, ?_, ?_⟩
  · rw [f5, e6]
  · rw [f6, e8]

theorem afterSecond_eq (a b c : Fn) (hab : a ≠ b) (hac : a ≠ c) (hbc : b ≠ c)
    (st1 r1 st2 r2 : JsVal) (h1 : st1 = SUCCESS ∨ st1 = ERROR)
    (h2 : st2 = SUCCESS ∨ st2 = ERROR) :
    (afterSecond a b c st1 r1 st2 r2).working = [c] ∧
    (afterSecond a b c st1 r1 st2 r2).queue = [] := by
  obtain ⟨f2, f3, f4, f5, _⟩ := afterFirst_eq a b c hab hac hbc st1 r1 h1
  have hm1 : (afterFirst a b c st1 r1).options.manualConsume = false := by rw [f5]
  obtain ⟨_, g2, g3, _⟩ :=
    resolve_then_admit_one (afterFirst a b c st1 r1) b c [] st2 r2 f2 f3 f4 hm1 h2 (Or.inl rfl)
  unfold afterSecond
  exact ⟨g2, g3⟩

/-- The barrier scenario where no function object is registered again: for pairwise
distinct functions a (async), b (defer), c (async) added as arrays in that order to a
fresh store with default options, after `start()` working is `[a]` and pending is
`[b, c]`, and `_consume` admits nothing there; the delivery of the outcome of a (success
or error) while a is in working gives working `[b]` and pending `[c]`, where `_consume`
again admits nothing; the delivery of the outcome of b then gives working `[c]` and an
empty pending.  In general `_consume` admits a function that is not async only into an
empty working, and in every state reachable without registering a function object that
is in working, every function found in working at the moment of an admission is
async. -/
theorem barrier_orders_admission (a b c : Fn) (hab : a ≠ b) (hac : a ≠ c) (hbc : b ≠ c)
    (st1 r1 st2 r2 : JsVal) (h1 : st1 = SUCCESS ∨ st1 = ERROR)
    (h2 : st2 = SUCCESS ∨ st2 = ERROR) :
    ((barrierScenario a b c).working = [a] ∧ (barrierScenario a b c).queue = [b, c]) ∧
    _consume (barrierScenario a b c) = barrierScenario a b c ∧
    ((afterFirst a b c st1 r1).working = [b] ∧ (afterFirst a b c st1 r1).queue = [c]) ∧
    _consume (afterFirst a b c st1 r1) = afterFirst a b c st1 r1 ∧
    ((afterSecond a b c st1 r1 st2 r2).working = [c] ∧
      (afterSecond a b c st1 r1 st2 r2).queue = []) ∧
    (∀ (o : Options) (s : FuncStack), s.paused = false →
      ∃ k, k ≤ s.queue.length ∧ _consume s = moved s k ∧
        ∀ i (hi : i < s.queue.length), i < k →
          (s.queueModeOf (s.queue.get ⟨i, hi⟩) ≠ some QueueMode.async →
            (moved s i).working = []) ∧
          (Reachable o s → ∀ g ∈ (moved s i).working,
            s.queueModeOf g = some QueueMode.async)) := by
  obtain ⟨e1, e2, _, _, _, _, _, e8, _⟩ := barrierScenario_eq a b c hab hac hbc
  obtain ⟨f2, f3, _, _, f6⟩ := afterFirst_eq a b c hab hac hbc st1 r1 h1
  refine ⟨⟨e1, e2⟩, ?_, ⟨f2, f3⟩, ?_, afterSecond_eq a b c hab hac hbc st1 r1 st2 r2 h1 h2, ?_⟩
  · apply consume_blocked (barrierScenario a b c) b a [c] [] e2 e1
    intro h
    have := h.1
    rw [e8] at this; cases this
  · apply consume_blocked (afterFirst a b c st1 r1) c b [] [] f3 f2
    intro h
    have := h.2
    rw [f6] at this; cases this
  · intro o s hp
    obtain ⟨k, hk1, hk2, hk3, _⟩ := _consume_spec s hp
    refine ⟨k, hk1, hk2, ?_⟩
    intro i hi hik
    have := admitted_safely s i hi (fun j hj => hk3 j (by omega))
    exact ⟨this.1, fun hr => this.2 (inv_reachable hr)⟩

/-- An instance of `barrier_orders_admission`: the functions `abc`, `def`, `ghi`, both
outcomes being success. -/
theorem barrier_orders_admission_witness :
    abc ≠ def_ ∧ abc ≠ ghi ∧ def_ ≠ ghi ∧
    (afterFirst abc def_ ghi SUCCESS .undefined).working = [def_] ∧
    (afterSecond abc def_ ghi SUCCESS .undefined SUCCESS .undefined).working = [ghi] :=
  ⟨by decide, by decide, by decide,
    (barrier_orders_admission abc def_ ghi (by decide) (by decide) (by decide)
      SUCCESS .undefined SUCCESS .undefined (Or.inl rfl) (Or.inl rfl)).2.2.1.1,
    (barrier_orders_admission abc def_ ghi (by decide) (by decide) (by decide)
      SUCCESS .undefined SUCCESS .undefined (Or.inl rfl) (Or.inl rfl)).2.2.2.2.1.1⟩

/-- C4, evaluated on the code: after `new FuncStack(null, [abc]).start()`, a `cancel(abc)`
followed by the firing of the wrapper of `abc`, and likewise two resolver calls of `abc`,
leave `abc` in two places, so the four collections hold 2 entries while `length()` is 1. -/
theorem collections_exceed_total_after_second_transition :
    (canceledThenRun.queue = [] ∧ canceledThenRun.working = [] ∧
      canceledThenRun.done = [abc] ∧ canceledThenRun.error = [abc] ∧
      length canceledThenRun = 1) ∧
    (resolvedTwice.state.queue = [] ∧ resolvedTwice.state.working = [] ∧
      resolvedTwice.state.done = [abc, abc] ∧ resolvedTwice.state.error = [] ∧
      length resolvedTwice.state = 1) ∧
    canceledThenRun.queue.length + canceledThenRun.working.length +
      canceledThenRun.done.length + canceledThenRun.error.length ≠ length canceledThenRun := by
  refine ⟨⟨by decide, by decide, by decide, by decide, by decide⟩,
    ⟨by decide, by decide, by decide, by decide, by decide⟩, by decide⟩

/-- C8, evaluated on the code: a second resolver call for a function that has left working
returns true, appends the function to done a second time, and invokes the progress and
the completion observer again. -/
theorem second_resolver_call_takes_effect :
    resolvedOnce.working = [] ∧ resolvedOnce.done = [abc] ∧
    resolvedTwice.result = .ok true ∧
    resolvedTwice.state.done = [abc, abc] ∧
    resolvedOnce.log.length = 3 ∧
    resolvedTwice.state.log.length = 5 ∧
    resolvedTwice.state.log.drop 3 =
      [Event.onProgress ⟨SUCCESS, .undefined, some .async, ⟨some 1, 0, 1, 0, 0, 1⟩⟩ abc,
       Event.onCompleted ⟨SUCCESS, .undefined, some .async, ⟨some 1, 0, 1, 0, 0, 1⟩⟩] := by
  refine ⟨by decide, by decide, rfl, by decide, by decide, by decide, by decide⟩

/-- C9, evaluated on the code: for a task that returns v without calling `preventDefault`
the wrapper delivers the result `v || undefined`; for the returned value 0 the progress
observer receives the result undefined, and the same happens for false, the empty string
and null. -/
theorem falsy_return_value_is_lost (s : FuncStack) (f : Fn) (v : JsVal) :
    (fnWrapper s f ⟨false, .returns v⟩).state =
      (resolveFn s f (.value SUCCESS) (v.or .undefined)).state ∧
    (JsVal.num 0).or .undefined = .undefined ∧
    (JsVal.bool false).or .undefined = .undefined ∧
    (JsVal.str "").or .undefined = .undefined ∧
    JsVal.null.or .undefined = .undefined ∧
    zeroReturned.done = [abc] ∧
    zeroReturned.log.drop 1 =
      [Event.onProgress ⟨SUCCESS, .undefined, some .async, ⟨some 1, 1, 0, 0, 1, 1⟩⟩ abc,
       Event.onCompleted ⟨SUCCESS, .undefined, some .async, ⟨some 1, 1, 0, 0, 1, 1⟩⟩] := by
  refine ⟨?_, by decide, by decide, by decide, by decide, by decide, by decide⟩
  simp only [fnWrapper, JsVal.truthy, Bool.not_false, Bool.and_false, Bool.or_false, if_true]
  split <;> rfl

/-- C10, evaluated on the code: a task that throws null without calling `preventDefault`
is delivered with the status success, lands in done and reaches the progress observer,
not the error observer; a task that calls `preventDefault` and then throws null is not
delivered at all and stays in working. -/
theorem falsy_thrown_value_is_not_an_error :
    nullThrown.done = [abc] ∧ nullThrown.error = [] ∧
    nullThrown.log.drop 1 =
      [Event.onProgress ⟨SUCCESS, .null, some .async, ⟨some 1, 1, 0, 0, 1, 1⟩⟩ abc,
       Event.onCompleted ⟨SUCCESS, .null, some .async, ⟨some 1, 1, 0, 0, 1, 1⟩⟩] ∧
    nullThrownWaiting.working = [abc] ∧ nullThrownWaiting.error = [] ∧
    nullThrownWaiting.log = startedOne.log := by
  refine ⟨by decide, by decide, by decide, by decide, by decide, by decide⟩

/-! ### Terminal transitions of in-flight tasks -/

theorem consume_eq_moved (s : FuncStack) : ∃ k, k ≤ s.queue.length ∧ _consume s = moved s k := by
  cases hp : s.paused with
  | true => exact ⟨0, Nat.zero_le _, by simp [_consume, hp, moved_zero]⟩
  | false =>
    obtain ⟨k, hk1, hk2, _⟩ := _consume_spec s hp
    exact ⟨k, hk1, hk2⟩

/-- What `afterSwitch` does without a stack name: some functions at the head of the queue
are admitted, and the completion observer is invoked at most once, at the end. -/
theorem afterSwitch_none (s : FuncStack) (snap : StatusObject) :
    ∃ k, k ≤ s.queue.length ∧
      (afterSwitch s snap none = moved s k ∨
        (afterSwitch s snap none =
            { moved s k with log := s.log ++ [Event.onCompleted snap] } ∧
          (moved s k).queue = [] ∧ (moved s k).working = [])) := by
  have key : ∀ k, k ≤ s.queue.length →
      (checkCompleted (moved s k) snap = moved s k ∨
        (checkCompleted (moved s k) snap =
            { moved s k with log := s.log ++ [Event.onCompleted snap] } ∧
          (moved s k).queue = [] ∧ (moved s k).working = [])) := by
    intro k _
    unfold checkCompleted
    simp only
    split
    · rename_i h
      right
      refine ⟨rfl, ?_, ?_⟩
      · exact List.length_eq_zero.mp (by omega)
      · exact List.length_eq_zero.mp (by omega)
    · exact Or.inl rfl
  unfold afterSwitch
  simp only
  split
  · refine ⟨0, Nat.zero_le _, ?_⟩
    have := key 0 (Nat.zero_le _)
    simpa [moved_zero] using this
  · obtain ⟨k, hk1, hk2⟩ := consume_eq_moved s
    rw [hk2]
    exact ⟨k, hk1, key k hk1⟩

/-- C11: for a task t in working and a notification delivered for it without a stack
name: with the status success `_check` returns normally, erases t from working, appends
it at the end of done, leaves error alone and invokes the progress observer once with the
snapshot and t, the only further observer call being at most one call of the completion
observer; with the status error or canceled it appends t at the end of error, leaves done
alone and invokes the error observer once instead.  In both cases some tasks from the
head of pending are admitted behind the remaining in-flight tasks.  Three async tasks
abc, def, ghi resolved in the order ghi, def, abc give done = [ghi, def, abc]. -/
theorem terminal_transition_routes_by_outcome (s : FuncStack) (n : StatusNotificationObject)
    (t : Fn) (ht : t ∈ s.working) :
    (n.status = SUCCESS →
      (_check s (some n) (some t) none).result = .ok () ∧
      (∃ k, k ≤ s.queue.length ∧
        (_check s (some n) (some t) none).state.working = s.working.erase t ++ s.queue.take k ∧
        (_check s (some n) (some t) none).state.queue = s.queue.drop k) ∧
      (_check s (some n) (some t) none).state.done = s.done ++ [t] ∧
      (_check s (some n) (some t) none).state.error = s.error ∧
      ((_check s (some n) (some t) none).state.log =
          s.log ++ [Event.onProgress (snapshot s n t) t] ∨
        (_check s (some n) (some t) none).state.log =
          s.log ++ [Event.onProgress (snapshot s n t) t, Event.onCompleted (snapshot s n t)])) ∧
    (n.status = ERROR ∨ n.status = CANCELED →
      (_check s (some n) (some t) none).result = .ok () ∧
      (∃ k, k ≤ s.queue.length ∧
        (_check s (some n) (some t) none).state.working = s.working.erase t ++ s.queue.take k ∧
        (_check s (some n) (some t) none).state.queue = s.queue.drop k) ∧
      (_check s (some n) (some t) none).state.done = s.done ∧
      (_check s (some n) (some t) none).state.error = s.error ++ [t] ∧
      ((_check s (some n) (some t) none).state.log =
          s.log ++ [Event.onError (snapshot s n t) t] ∨
        (_check s (some n) (some t) none).state.log =
          s.log ++ [Event.onError (snapshot s n t) t, Event.onCompleted (snapshot s n t)])) ∧
    resolvedInReverse.done = [ghi, def_, abc] := by
  refine ⟨?_, ?_, by decide⟩
  · intro hs
    rw [_check_inFlight_success s n t ht hs]
    obtain ⟨k, hk, h | ⟨h, _, _⟩⟩ := afterSwitch_none
      { s with working := s.working.erase t, done := s.done ++ [t],
               log := s.log ++ [Event.onProgress (snapshot s n t) t] } (snapshot s n t)
    · rw [h]
      exact ⟨rfl, ⟨k, hk, rfl, rfl⟩, rfl, rfl, Or.inl rfl⟩
    · rw [h]
      exact ⟨rfl, ⟨k, hk, rfl, rfl⟩, rfl, rfl, Or.inr (by simp)⟩
  · intro hs
    rw [_check_inFlight_failure s n t ht hs]
    obtain ⟨k, hk, h | ⟨h, _, _⟩⟩ := afterSwitch_none
      { s with working := s.working.erase t, error := s.error ++ [t],
               log := s.log ++ [Event.onError (snapshot s n t) t] } (snapshot s n t)
    · rw [h]
      exact ⟨rfl, ⟨k, hk, rfl, rfl⟩, rfl, rfl, Or.inl rfl⟩
    · rw [h]
      exact ⟨rfl, ⟨k, hk, rfl, rfl⟩, rfl, rfl, Or.inr (by simp)⟩

/-- Witness for C11: in `threeWaiting` the task `ghi` is in working and is delivered with
the status success. -/
theorem terminal_transition_routes_by_outcome_witness :
    ghi ∈ threeWaiting.working ∧
    (_check threeWaiting (some ⟨SUCCESS, .undefined⟩) (some ghi) none).state.done
      = threeWaiting.done ++ [ghi] :=
  ⟨by decide,
    ((terminal_transition_routes_by_outcome threeWaiting ⟨SUCCESS, .undefined⟩ ghi
      (by decide)).1 rfl).2.2.1⟩

/-! ### Completion of a run -/

theorem remaining_moved (s : FuncStack) (k : Nat) (hk : k ≤ s.queue.length) :
    remaining (moved s k) = remaining s := by
  simp [remaining, moved]; omega

/-- The effect of `afterSwitch` without a stack name on the bookkeeping of a run. -/
theorem afterSwitch_run (s : FuncStack) (snap : StatusObject) :
    (afterSwitch s snap none).options = s.options ∧
    (afterSwitch s snap none).paused = s.paused ∧
    remaining (afterSwitch s snap none) = remaining s ∧
    completions (afterSwitch s snap none) =
      completions s + (if remaining s = 0 then 1 else 0) ∧
    (s.options.manualConsume = false → s.paused = false →
      (afterSwitch s snap none).queue ≠ [] → (afterSwitch s snap none).working ≠ []) := by
  have hcc : ∀ t : FuncStack, (checkCompleted t snap).options = t.options ∧
      (checkCompleted t snap).paused = t.paused ∧
      (checkCompleted t snap).queue = t.queue ∧
      (checkCompleted t snap).working = t.working ∧
      completions (checkCompleted t snap) = completions t + (if remaining t = 0 then 1 else 0) := by
    intro t
    unfold checkCompleted
    simp only [remaining]
    split
    · simp [completions, List.countP_append, Event.isCompleted]
    · simp
  obtain ⟨k, hk, hk2⟩ := consume_eq_moved s
  have hrem : remaining (_consume s) = remaining s := by rw [hk2]; exact remaining_moved s k hk
  have hlog : completions (_consume s) = completions s := by rw [hk2]; rfl
  have hopt : (_consume s).options = s.options := by rw [hk2]; rfl
  have hpau : (_consume s).paused = s.paused := by rw [hk2]; rfl
  unfold afterSwitch
  simp only
  by_cases hm : s.options.manualConsume = true
  · rw [if_pos hm]
    obtain ⟨c1, c2, c3, c4, c5⟩ := hcc s
    refine ⟨c1, c2, ?_, c5, ?_⟩
    · simp only [remaining, c3, c4]
    · intro h; rw [hm] at h; cases h
  · rw [if_neg hm]
    obtain ⟨c1, c2, c3, c4, c5⟩ := hcc (_consume s)
    refine ⟨by rw [c1, hopt], by rw [c2, hpau], ?_, ?_, ?_⟩
    · simp only [remaining, c3, c4]; exact hrem
    · rw [c5, hlog, hrem]
    · intro _ hp hq
      rw [c3] at hq
      rw [c4]
      obtain ⟨j, _, hj2, _, hj4⟩ := _consume_spec s hp
      rw [hj2] at hq ⊢
      rcases hj4 with h | h
      · exact absurd h hq
      · intro hw
        cases hq2 : (moved s j).queue with
        | nil => exact hq hq2
        | cons q0 rest =>
          have := (_consumeCheck_true_iff (moved s j) q0 rest hq2).mpr (Or.inl hw)
          rw [h] at this; cases this

/-- One delivery for a task in working: one task less remains, and the completion
observer is invoked exactly when none remains. -/
theorem deliver_run (s : FuncStack) (f : Fn) (st r : JsVal) (hf : f ∈ s.working)
    (hst : st = SUCCESS ∨ st = ERROR) :
    (resolveFn s f (.value st) r).state.options = s.options ∧
    (resolveFn s f (.value st) r).state.paused = s.paused ∧
    remaining (resolveFn s f (.value st) r).state + 1 = remaining s ∧
    completions (resolveFn s f (.value st) r).state =
      completions s + (if remaining (resolveFn s f (.value st) r).state = 0 then 1 else 0) ∧
    (s.options.manualConsume = false → s.paused = false →
      (resolveFn s f (.value st) r).state.queue ≠ [] →
      (resolveFn s f (.value st) r).state.working ≠ []) := by
  obtain ⟨h1, _⟩ := resolveFn_of_get s f (.value st) r (get_fn_isSome_of_working s f hf)
  rw [h1]
  have hlen : (s.working.erase f).length + 1 = s.working.length := by
    rw [List.length_erase_of_mem hf]
    have : 0 < s.working.length := List.length_pos_of_mem hf
    omega
  rcases hst with hs | hs
  · rw [_check_inFlight_success s ⟨st, r⟩ f hf hs]
    obtain ⟨a1, a2, a3, a4, a5⟩ := afterSwitch_run
      { s with working := s.working.erase f, done := s.done ++ [f],
               log := s.log ++ [Event.onProgress (snapshot s ⟨st, r⟩ f) f] }
      (snapshot s ⟨st, r⟩ f)
    refine ⟨a1, a2, ?_, ?_, a5⟩
    · rw [a3]; simp only [remaining]; omega
    · rw [a4, a3]
      simp [completions, List.countP_append, Event.isCompleted]
  · rw [_check_inFlight_failure s ⟨st, r⟩ f hf (Or.inl hs)]
    obtain ⟨a1, a2, a3, a4, a5⟩ := afterSwitch_run
      { s with working := s.working.erase f, error := s.error ++ [f],
               log := s.log ++ [Event.onError (snapshot s ⟨st, r⟩ f) f] }
      (snapshot s ⟨st, r⟩ f)
    refine ⟨a1, a2, ?_, ?_, a5⟩
    · rw [a3]; simp only [remaining]; omega
    · rw [a4, a3]
      simp [completions, List.countP_append, Event.isCompleted]

/-- The bookkeeping of `start`. -/
theorem start_run (s : FuncStack) :
    (start s).state.options = s.options ∧
    (start s).state.paused = false ∧
    remaining (start s).state = remaining s ∧
    completions (start s).state = completions s + (if remaining s = 0 then 1 else 0) ∧
    (s.options.manualConsume = false →
      (start s).state.queue ≠ [] → (start s).state.working ≠ []) := by
  obtain ⟨p1, p2, _, _, p5, p6, _, _, _, _, w, p11⟩ := startPrologue_fields s
  have key : (start s).state = afterSwitch (startPrologue s) ⟨.undefined, .undefined, none,
      countsOf (if (startPrologue s).options.manualConsume = true then startPrologue s
        else _consume (startPrologue s))⟩ none := rfl
  obtain ⟨a1, a2, a3, a4, a5⟩ := afterSwitch_run (startPrologue s) ⟨.undefined, .undefined, none,
      countsOf (if (startPrologue s).options.manualConsume = true then startPrologue s
        else _consume (startPrologue s))⟩
  have hrem : remaining (startPrologue s) = remaining s := by simp only [remaining, p1, p2]
  have hcomp : completions (startPrologue s) = completions s := by
    simp [completions, p11, List.countP_append, Event.isCompleted]
  rw [key]
  refine ⟨by rw [a1, p6], by rw [a2, p5], by rw [a3, hrem], by rw [a4, hrem, hcomp], ?_⟩
  intro hm
  exact a5 (by rw [p6]; exact hm) p5

/-- Along deliveries the options and the pause flag stay as they are, and as long as
tasks are pending some task is in working. -/
theorem deliveries_progress {s t : FuncStack} (h : Deliveries s t)
    (hm : s.options.manualConsume = false) (hp : s.paused = false)
    (hq : s.queue ≠ [] → s.working ≠ []) :
    t.options.manualConsume = false ∧ t.paused = false ∧ (t.queue ≠ [] → t.working ≠ []) := by
  induction h with
  | done s => exact ⟨hm, hp, hq⟩
  | deliver s t f st r hf hst _ ih =>
    obtain ⟨d1, d2, _, _, d5⟩ := deliver_run s f st r hf hst
    exact ih (by rw [d1]; exact hm) (by rw [d2]; exact hp) (d5 hm hp)

/-- Along deliveries that end with nothing remaining, the completion observer is invoked
once if something remained at the beginning and not at all otherwise. -/
theorem deliveries_completions {s t : FuncStack} (h : Deliveries s t) (ht : remaining t = 0) :
    completions t = completions s + (if remaining s = 0 then 0 else 1) := by
  induction h with
  | done s => simp [ht]
  | deliver s t f st r hf hst _ ih =>
    obtain ⟨_, _, d3, d4, _⟩ := deliver_run s f st r hf hst
    rw [ih ht, d4]
    have hs : remaining s ≠ 0 := by omega
    simp only [hs, if_false]
    split <;> simp

/-- C12: let a store with manual consumption off be started once, and let then nothing
happen but deliveries of terminal outcomes (success or error) for tasks in working,
until no task is pending or in working.  Then the completion observer has been invoked
exactly once since before the start.  Every invocation, by `start` or by a delivery,
leaves pending and working empty; when nothing is pending or in working at the start,
the invocation is made by `start` itself; and as long as a task is pending during the
run, some task is in working, so that the run can go on. -/
theorem completion_observer_fires_once (s t : FuncStack)
    (hm : s.options.manualConsume = false)
    (hrun : Deliveries (start s).state t) (hend : t.queue = [] ∧ t.working = []) :
    completions t = completions s + 1 ∧
    (remaining s = 0 → completions (start s).state = completions s + 1) ∧
    (completions (start s).state ≠ completions s →
      (start s).state.queue = [] ∧ (start s).state.working = []) ∧
    (∀ (u : FuncStack) (f : Fn) (st r : JsVal), f ∈ u.working → (st = SUCCESS ∨ st = ERROR) →
      completions (resolveFn u f (.value st) r).state ≠ completions u →
      (resolveFn u f (.value st) r).state.queue = [] ∧
      (resolveFn u f (.value st) r).state.working = []) ∧
    (∀ u : FuncStack, Deliveries (start s).state u → u.queue ≠ [] → u.working ≠ []) := by
  obtain ⟨s1, s2, s3, s4, s5⟩ := start_run s
  have hempty : ∀ v : FuncStack, remaining v = 0 → v.queue = [] ∧ v.working = [] := by
    intro v hv
    simp only [remaining] at hv
    exact ⟨List.length_eq_zero.mp (by omega), List.length_eq_zero.mp (by omega)⟩
  have ht : remaining t = 0 := by simp [remaining, hend.1, hend.2]
  refine ⟨?_, ?_, ?_, ?_, ?_⟩
  · rw [deliveries_completions hrun ht, s4, s3]
    split <;> rfl
  · intro h0; rw [s4]; simp [h0]
  · intro hne
    apply hempty
    rw [s3]
    by_contra h0
    rw [s4] at hne; simp [h0] at hne
  · intro u f st r hf hst hne
    obtain ⟨_, _, _, d4, _⟩ := deliver_run u f st r hf hst
    apply hempty
    by_contra h0
    rw [d4] at hne; simp [h0] at hne
  · intro u hu
    exact (deliveries_progress hu (by rw [s1]; exact hm) s2 (s5 hm)).2.2

/-- Witness for C12: the run `new FuncStack(null, [abc]).start()` in which the outcome of
`abc` is delivered once. -/
theorem completion_observer_fires_once_witness :
    (construct {} [abc]).options.manualConsume = false ∧
    Deliveries (start (construct {} [abc])).state
      (resolveFn (start (construct {} [abc])).state abc (.value SUCCESS) .undefined).state ∧
    completions (resolveFn (start (construct {} [abc])).state abc (.value SUCCESS)
      .undefined).state = completions (construct {} [abc]) + 1 := by
  have hrun : Deliveries (start (construct {} [abc])).state
      (resolveFn (start (construct {} [abc])).state abc (.value SUCCESS) .undefined).state :=
    Deliveries.deliver _ _ abc SUCCESS .undefined (by decide) (Or.inl rfl) (Deliveries.done _)
  exact ⟨rfl, hrun,
    (completion_observer_fires_once (construct {} [abc]) _ rfl hrun
      ⟨by decide, by decide⟩).1⟩

/-! ### The snapshot handed to the completion observer -/

theorem _check_omitted (s : FuncStack) (c : Option Fn) (st : Option StackName) :
    _check s none c st = _check s (some ⟨.undefined, .undefined⟩) c st := rfl

theorem _check_initial (s : FuncStack) (n : StatusNotificationObject) (st : Option StackName) :
    _check s (some n) none st =
      ⟨checkCompleted s ⟨n.status, n.result, none, countsOf s⟩, .ok ()⟩ := rfl

theorem _check_some_success (s : FuncStack) (n : StatusNotificationObject) (f : Fn)
    (st : Option StackName) (h : n.status = SUCCESS) :
    _check s (some n) (some f) st =
      ⟨afterSwitch (pushDone (removed s st f) f (snapshot s n f)) (snapshot s n f) st, .ok ()⟩ := by
  simp [_check, h, snapshot]

theorem _check_some_failure (s : FuncStack) (n : StatusNotificationObject) (f : Fn)
    (st : Option StackName) (h : n.status = ERROR ∨ n.status = CANCELED) :
    _check s (some n) (some f) st =
      ⟨afterSwitch (pushError (removed s st f) f (snapshot s n f)) (snapshot s n f) st,
        .ok ()⟩ := by
  have h1 : n.status ≠ SUCCESS := by
    rcases h with h | h <;> rw [h] <;> decide
  simp [_check, h1, h.symm, snapshot]

theorem _check_some_faulty (s : FuncStack) (n : StatusNotificationObject) (f : Fn)
    (st : Option StackName) (h1 : n.status ≠ SUCCESS) (h2 : n.status ≠ ERROR)
    (h3 : n.status ≠ CANCELED) :
    _check s (some n) (some f) st =
      ⟨{ removed s st f with error := (removed s st f).error ++ [f] }, .error .statusFaulty⟩ := by
  simp [_check, h1, h2, h3]

theorem removed_log (s : FuncStack) (st : Option StackName) (f : Fn) :
    (removed s st f).log = s.log := by
  unfold removed
  cases st.getD StackName.working <;> rfl

/-- The observer calls made by `afterSwitch`: at most one call of the completion
observer, which finds the queue and working empty. -/
theorem afterSwitch_log (s : FuncStack) (snap : StatusObject) (st : Option StackName) :
    (afterSwitch s snap st).log = s.log ∨
      ((afterSwitch s snap st).log = s.log ++ [Event.onCompleted snap] ∧
        (afterSwitch s snap st).queue = [] ∧ (afterSwitch s snap st).working = []) := by
  cases st with
  | some name => exact Or.inl rfl
  | none =>
    obtain ⟨k, _, h | ⟨h, hq, hw⟩⟩ := afterSwitch_none s snap
    · left; rw [h]; rfl
    · right; rw [h]; exact ⟨rfl, hq, hw⟩

/-- The observer calls made by one `_check`: at most one call of the progress or the error
observer, then at most one call of the completion observer, which finds the queue and
working empty; all of them receive the counts taken at the entry of `_check`. -/
theorem _check_log (s : FuncStack) (n : StatusNotificationObject) (c : Option Fn)
    (st : Option StackName) :
    ∃ (snap : StatusObject) (pre : List Event),
      snap.counts = countsOf s ∧
      (∀ e ∈ pre, e.isCompleted = false) ∧
      ((_check s (some n) c st).state.log = s.log ++ pre ∨
        ((_check s (some n) c st).state.log = s.log ++ pre ++ [Event.onCompleted snap] ∧
          (_check s (some n) c st).state.queue = [] ∧
          (_check s (some n) c st).state.working = [])) := by
  cases c with
  | none =>
    refine ⟨⟨n.status, n.result, none, countsOf s⟩, [], rfl, by simp, ?_⟩
    rw [_check_initial]
    simp only [checkCompleted]
    split
    · rename_i h
      right
      refine ⟨by simp, ?_, ?_⟩
      · show s.queue = []
        exact List.length_eq_zero.mp (by omega)
      · show s.working = []
        exact List.length_eq_zero.mp (by omega)
    · left; simp
  | some f =>
    by_cases h1 : n.status = SUCCESS
    · refine ⟨snapshot s n f, [Event.onProgress (snapshot s n f) f], rfl,
        by simp [Event.isCompleted], ?_⟩
      rw [_check_some_success s n f st h1]
      have hl : (pushDone (removed s st f) f (snapshot s n f)).log =
          s.log ++ [Event.onProgress (snapshot s n f) f] := by
        simp [pushDone, removed_log]
      rcases afterSwitch_log (pushDone (removed s st f) f (snapshot s n f)) (snapshot s n f) st
        with h | ⟨h, hq, hw⟩
      · left; rw [← hl]; exact h
      · right; rw [← hl]; exact ⟨h, hq, hw⟩
    · by_cases h2 : n.status = ERROR ∨ n.status = CANCELED
      · refine ⟨snapshot s n f, [Event.onError (snapshot s n f) f], rfl,
          by simp [Event.isCompleted], ?_⟩
        rw [_check_some_failure s n f st h2]
        have hl : (pushError (removed s st f) f (snapshot s n f)).log =
            s.log ++ [Event.onError (snapshot s n f) f] := by
          simp [pushError, removed_log]
        rcases afterSwitch_log (pushError (removed s st f) f (snapshot s n f)) (snapshot s n f) st
          with h | ⟨h, hq, hw⟩
        · left; rw [← hl]; exact h
        · right; rw [← hl]; exact ⟨h, hq, hw⟩
      · refine ⟨snapshot s n f, [], rfl, by simp, ?_⟩
        left
        rw [_check_some_faulty s n f st h1 (fun h => h2 (Or.inl h)) (fun h => h2 (Or.inr h))]
        simp [removed_log]

theorem countsOf_checkCompleted (s : FuncStack) (x : StatusObject) :
    countsOf (checkCompleted s x) = countsOf s := by
  unfold checkCompleted
  simp only
  split <;> rfl

/-- The collections after the terminal transition of a task in working, without a stack
name. -/
theorem inFlight_transition_fields (s : FuncStack) (n : StatusNotificationObject) (t : Fn)
    (ht : t ∈ s.working)
    (hst : n.status = SUCCESS ∨ n.status = ERROR ∨ n.status = CANCELED) :
    ∃ k, k ≤ s.queue.length ∧
      (_check s (some n) (some t) none).state.working = s.working.erase t ++ s.queue.take k ∧
      (_check s (some n) (some t) none).state.queue = s.queue.drop k ∧
      (_check s (some n) (some t) none).state.done.length +
        (_check s (some n) (some t) none).state.error.length =
          s.done.length + s.error.length + 1 ∧
      (_check s (some n) (some t) none).state.fnCount = s.fnCount := by
  rcases hst with hs | hs
  · rw [_check_inFlight_success s n t ht hs]
    obtain ⟨k, hk, h | ⟨h, _, _⟩⟩ := afterSwitch_none
      { s with working := s.working.erase t, done := s.done ++ [t],
               log := s.log ++ [Event.onProgress (snapshot s n t) t] } (snapshot s n t)
    · rw [h]; exact ⟨k, hk, rfl, rfl, by simp [moved]; omega, rfl⟩
    · rw [h]; exact ⟨k, hk, rfl, rfl, by simp [moved]; omega, rfl⟩
  · rw [_check_inFlight_failure s n t ht hs]
    obtain ⟨k, hk, h | ⟨h, _, _⟩⟩ := afterSwitch_none
      { s with working := s.working.erase t, error := s.error ++ [t],
               log := s.log ++ [Event.onError (snapshot s n t) t] } (snapshot s n t)
    · rw [h]; exact ⟨k, hk, rfl, rfl, by simp [moved]; omega, rfl⟩
    · rw [h]; exact ⟨k, hk, rfl, rfl, by simp [moved]; omega, rfl⟩

/-- C13 as stated fails: in the run `new FuncStack(null, [abc]).start()` where `abc` returns
normally, the completion observer is invoked by the terminal transition of `abc` with a
snapshot that says 1 remaining, 1 working and 0 finished, while at that moment working
is empty and `abc` is in done. -/
theorem completion_snapshot_shows_last_task_in_flight :
    plainFinished.log.getLast? =
      some (Event.onCompleted ⟨SUCCESS, .undefined, some .async, ⟨some 1, 1, 0, 0, 1, 1⟩⟩) ∧
    plainFinished.queue = [] ∧ plainFinished.working = [] ∧
    plainFinished.done = [abc] ∧ plainFinished.error = [] := by
  refine ⟨by decide, by decide, by decide, by decide, by decide⟩

/-- C13, amended: whenever `_check` invokes the completion observer, the queue and
working are empty and the snapshot carries the counts taken at the entry of `_check`,
before the task is moved.  For the initial check (no task, as made by `start`) these are
the counts of the store at the moment of the invocation: left, pending and working are
0, finished is the size of done plus the size of error, total is `length()`.  When the
invocation comes with the terminal transition of a task in working (no stack name), they
are the counts before that transition: left 1, working 1, pending 0, finished one less
than the size of done plus the size of error, total `length()`. -/
theorem completion_snapshot_is_taken_at_entry (s : FuncStack)
    (n : Option StatusNotificationObject) (c : Option Fn) (st : Option StackName)
    (snap : StatusObject)
    (h : Event.onCompleted snap ∈ (_check s n c st).state.log.drop s.log.length) :
    snap.counts = countsOf s ∧
    (_check s n c st).state.queue = [] ∧ (_check s n c st).state.working = [] ∧
    (c = none →
      snap.counts = countsOf (_check s n c st).state ∧
      snap.counts.left = 0 ∧ snap.counts.pending = 0 ∧ snap.counts.working = 0 ∧
      snap.counts.finished =
        (_check s n c st).state.done.length + (_check s n c st).state.error.length ∧
      snap.counts.total = length (_check s n c st).state) ∧
    (∀ f, c = some f → f ∈ s.working → st = none →
      snap.counts.left = 1 ∧ snap.counts.working = 1 ∧ snap.counts.pending = 0 ∧
      snap.counts.finished + 1 =
        (_check s n c st).state.done.length + (_check s n c st).state.error.length ∧
      snap.counts.total = length (_check s n c st).state) := by
  have hn : ∃ m : StatusNotificationObject, _check s n c st = _check s (some m) c st := by
    cases n with
    | none => exact ⟨_, _check_omitted s c st⟩
    | some m => exact ⟨m, rfl⟩
  obtain ⟨m, hm⟩ := hn
  rw [hm] at h ⊢
  obtain ⟨snap2, pre, e1, e2, e3⟩ := _check_log s m c st
  have hmain : snap = snap2 ∧ (_check s (some m) c st).state.queue = [] ∧
      (_check s (some m) c st).state.working = [] := by
    rcases e3 with e | ⟨e, hq, hw⟩
    · rw [e, List.drop_left] at h
      have := e2 _ h
      simp [Event.isCompleted] at this
    · rw [e, List.append_assoc, List.drop_left] at h
      rcases List.mem_append.mp h with h | h
      · have := e2 _ h
        simp [Event.isCompleted] at this
      · simp at h
        exact ⟨h, hq, hw⟩
  obtain ⟨hsnap, hq, hw⟩ := hmain
  subst hsnap
  refine ⟨e1, hq, hw, ?_, ?_⟩
  · intro hc
    subst hc
    have hcounts : countsOf (_check s (some m) none st).state = countsOf s := by
      rw [_check_initial]; exact countsOf_checkCompleted _ _
    have hq2 : s.queue = [] := by
      have := congrArg Counts.pending hcounts
      simp only [countsOf, hq, List.length_nil] at this
      exact List.length_eq_zero.mp this.symm
    have hw2 : s.working = [] := by
      have := congrArg Counts.working hcounts
      simp only [countsOf, hw, List.length_nil] at this
      exact List.length_eq_zero.mp this.symm
    rw [e1]
    refine ⟨hcounts.symm, ?_, ?_, ?_, ?_, ?_⟩
    · simp [countsOf, hq2, hw2]
    · simp [countsOf, hq2]
    · simp [countsOf, hw2]
    · have := congrArg Counts.finished hcounts
      simpa [countsOf] using this.symm
    · have := congrArg Counts.total hcounts
      simpa [countsOf, length] using this.symm
  · intro f hc hf hst
    subst hc; subst hst
    have hstatus : m.status = SUCCESS ∨ m.status = ERROR ∨ m.status = CANCELED := by
      by_contra hno
      simp only [not_or] at hno
      rw [_check_some_faulty s m f none hno.1 hno.2.1 hno.2.2] at h
      simp [removed_log] at h
    obtain ⟨k, hk, t1, t2, t3, t4⟩ := inFlight_transition_fields s m f hf hstatus
    rw [hw] at t1
    rw [hq] at t2
    have herase : s.working.erase f = [] := by
      have := t1.symm
      simp only [List.append_eq_nil] at this
      exact this.1
    have htake : s.queue.take k = [] := by
      have := t1.symm
      simp only [List.append_eq_nil] at this
      exact this.2
    have hq2 : s.queue = [] := by
      have := List.take_append_drop k s.queue
      rw [htake, ← t2] at this
      simpa using this.symm
    have hlen : s.working.length = 1 := by
      have := List.length_erase_of_mem hf
      rw [herase] at this
      have hpos : 0 < s.working.length := List.length_pos_of_mem hf
      simp at this
      omega
    rw [e1]
    refine ⟨?_, ?_, ?_, ?_, ?_⟩
    · simp [countsOf, hq2, hlen]
    · simp [countsOf, hlen]
    · simp [countsOf, hq2]
    · simp only [countsOf]; omega
    · simp only [countsOf, length]; exact t4.symm

/-- Witness for C13: the completion observer call made by `start` on an empty store. -/
theorem completion_snapshot_is_taken_at_entry_witness :
    Event.onCompleted ⟨.undefined, .undefined, none, ⟨some 0, 0, 0, 0, 0, 0⟩⟩ ∈
      (_check (startPrologue (fresh {})) none none none).state.log.drop
        (startPrologue (fresh {})).log.length ∧
    (⟨some 0, 0, 0, 0, 0, 0⟩ : Counts) = countsOf (startPrologue (fresh {})) :=
  ⟨by decide,
    (completion_snapshot_is_taken_at_entry (startPrologue (fresh {})) none none none
      ⟨.undefined, .undefined, none, ⟨some 0, 0, 0, 0, 0, 0⟩⟩ (by decide)).1⟩

/-! ### Lookup -/

theorem scanStack_some (s : FuncStack) (id : Ident) (n : StackName) (l : List Fn) :
    ∀ pos d, scanStack s id n l pos = some d →
      d.stack = n ∧ d.id = s.fnCountOf d.fn ∧ matchesId s id d.fn = true ∧ pos ≤ d.pos ∧
      l[d.pos - pos]? = some d.fn ∧
      (∀ j g, j < d.pos - pos → l[j]? = some g → matchesId s id g = false) := by
  induction l with
  | nil => intro pos d h; simp [scanStack] at h
  | cons f rest ih =>
    intro pos d h
    by_cases hf : matchesId s id f = true
    · simp only [scanStack, hf, if_true, Option.some.injEq] at h
      subst h
      simp [hf]
    · simp only [scanStack] at h
      rw [if_neg hf] at h
      obtain ⟨h1, h2, h3, h4, h5, h6⟩ := ih (pos + 1) d h
      have hsub : d.pos - pos = (d.pos - (pos + 1)) + 1 := by omega
      refine ⟨h1, h2, h3, by omega, ?_, ?_⟩
      · rw [hsub, List.getElem?_cons_succ]; exact h5
      · intro j g hj hg
        cases j with
        | zero =>
          simp only [List.getElem?_cons_zero, Option.some.injEq] at hg
          subst hg
          simpa using hf
        | succ j =>
          rw [List.getElem?_cons_succ] at hg
          exact h6 j g (by omega) hg

theorem scanStack_none (s : FuncStack) (id : Ident) (n : StackName) (l : List Fn) :
    ∀ pos, scanStack s id n l pos = none ↔ ∀ g ∈ l, matchesId s id g = false := by
  induction l with
  | nil => intro pos; simp [scanStack]
  | cons f rest ih =>
    intro pos
    by_cases hf : matchesId s id f = true
    · simp [scanStack, hf]
    · simp only [scanStack]
      rw [if_neg hf, ih (pos + 1)]
      simp only [List.mem_cons, forall_eq_or_imp]
      constructor
      · intro h; exact ⟨by simpa using hf, h⟩
      · intro h; exact h.2

/-- What a descriptor returned by `get` says, and when `get` finds nothing. -/
theorem get_spec (s : FuncStack) (id : Ident) :
    (∀ d, get s id = some d →
      matchesId s id d.fn = true ∧ (stack s d.stack)[d.pos]? = some d.fn ∧
      d.id = s.fnCountOf d.fn ∧
      (∀ j g, j < d.pos → (stack s d.stack)[j]? = some g → matchesId s id g = false) ∧
      (∀ n g, n.rank < d.stack.rank → g ∈ stack s n → matchesId s id g = false)) ∧
    (get s id = none ↔ ∀ n g, g ∈ stack s n → matchesId s id g = false) := by
  have hq := scanStack_none s id .queue s.queue 0
  have hw := scanStack_none s id .working s.working 0
  have hd := scanStack_none s id .done s.done 0
  have he := scanStack_none s id .error s.error 0
  have hall : ∀ (P : StackName → Prop), (∀ n, P n) ↔ (P .queue ∧ P .working ∧ P .done ∧ P .error) := by
    intro P
    constructor
    · intro h; exact ⟨h _, h _, h _, h _⟩
    · intro h n; cases n
      · exact h.1
      · exact h.2.1
      · exact h.2.2.1
      · exact h.2.2.2
  constructor
  · intro d hget
    unfold get at hget
    cases h1 : scanStack s id .queue s.queue 0 with
    | some i =>
      rw [h1] at hget
      simp only [Option.some.injEq] at hget
      subst hget
      obtain ⟨a1, a2, a3, _, a5, a6⟩ := scanStack_some s id .queue s.queue 0 i h1
      rw [a1]
      refine ⟨a3, by simpa [stack] using a5, a2, ?_, ?_⟩
      · intro j g hj hg; exact a6 j g (by simpa using hj) (by simpa [stack] using hg)
      · intro n g hn; cases n <;> simp [StackName.rank] at hn
    | none =>
      rw [h1] at hget
      simp only at hget
      cases h2 : scanStack s id .working s.working 0 with
      | some i =>
        rw [h2] at hget
        simp only [Option.some.injEq] at hget
        subst hget
        obtain ⟨a1, a2, a3, _, a5, a6⟩ := scanStack_some s id .working s.working 0 i h2
        rw [a1]
        refine ⟨a3, by simpa [stack] using a5, a2, ?_, ?_⟩
        · intro j g hj hg; exact a6 j g (by simpa using hj) (by simpa [stack] using hg)
        · intro n g hn hg
          cases n <;> simp [StackName.rank] at hn
          exact hq.mp h1 g hg
      | none =>
        rw [h2] at hget
        simp only at hget
        cases h3 : scanStack s id .done s.done 0 with
        | some i =>
          rw [h3] at hget
          simp only [Option.some.injEq] at hget
          subst hget
          obtain ⟨a1, a2, a3, _, a5, a6⟩ := scanStack_some s id .done s.done 0 i h3
          rw [a1]
          refine ⟨a3, by simpa [stack] using a5, a2, ?_, ?_⟩
          · intro j g hj hg; exact a6 j g (by simpa using hj) (by simpa [stack] using hg)
          · intro n g hn hg
            cases n <;> simp [StackName.rank] at hn
            · exact hq.mp h1 g hg
            · exact hw.mp h2 g hg
        | none =>
          rw [h3] at hget
          simp only at hget
          obtain ⟨a1, a2, a3, _, a5, a6⟩ := scanStack_some s id .error s.error 0 d hget
          rw [a1]
          refine ⟨a3, by simpa [stack] using a5, a2, ?_, ?_⟩
          · intro j g hj hg; exact a6 j g (by simpa using hj) (by simpa [stack] using hg)
          · intro n g hn hg
            cases n <;> simp [StackName.rank] at hn
            · exact hq.mp h1 g hg
            · exact hw.mp h2 g hg
            · exact hd.mp h3 g hg
  · rw [hall]
    simp only [stack]
    rw [← hq, ← hw, ← hd, ← he]
    unfold get
    cases scanStack s id .queue s.queue 0 <;> cases scanStack s id .working s.working 0 <;>
      cases scanStack s id .done s.done 0 <;> cases scanStack s id .error s.error 0 <;> simp

/-- The scan of `get`: it returns a descriptor exactly when some stored function passes
the test of line 451 (a number, and a string that converts to a number, pass for the
function with that `fnCount`; a string that converts to no number for the functions of
that name; a function object for itself).  The descriptor names a function that passes;
its stack is an array that holds this function at the position given; its id is the
`fnCount` of the function; no function at an earlier position of that array passes, and
no function in an array visited earlier (queue, working, done, error in this order)
passes.  When nothing passes the result is the not-found value. -/
theorem get_returns_first_match (s : FuncStack) (id : Ident) :
    (∀ d, get s id = some d →
      (match id with
        | .num k => ∃ c, s.fnCountOf d.fn = some c ∧ (c : Int) = k
        | .str nm .nan => d.fn.name = nm
        | .str _ (.nat k) => s.fnCountOf d.fn = some k
        | .str _ .other => False
        | .fn g => d.fn = g) ∧
      (stack s d.stack)[d.pos]? = some d.fn ∧
      d.id = s.fnCountOf d.fn ∧
      (∀ j g, j < d.pos → (stack s d.stack)[j]? = some g → matchesId s id g = false) ∧
      (∀ n g, n.rank < d.stack.rank → g ∈ stack s n → matchesId s id g = false)) ∧
    ((∃ n g, g ∈ stack s n ∧ matchesId s id g = true) → ∃ d, get s id = some d) ∧
    ((∀ n g, g ∈ stack s n → matchesId s id g = false) → get s id = none) := by
  obtain ⟨h1, h2⟩ := get_spec s id
  refine ⟨?_, ?_, h2.mpr⟩
  · intro d hd
    obtain ⟨a1, a2, a3, a4, a5⟩ := h1 d hd
    refine ⟨?_, a2, a3, a4, a5⟩
    cases id with
    | num k =>
      simp only [matchesId] at a1
      cases hc : s.fnCountOf d.fn with
      | none => rw [hc] at a1; simp at a1
      | some c => rw [hc] at a1; exact ⟨c, rfl, by simpa using a1⟩
    | str nm number =>
      cases number with
      | nan => simpa [matchesId] using a1
      | nat k =>
        simp only [matchesId] at a1
        cases hc : s.fnCountOf d.fn with
        | none => rw [hc] at a1; simp at a1
        | some c => rw [hc] at a1; simpa using a1
      | other => simp [matchesId] at a1
    | fn g => simpa [matchesId] using a1
  · intro ⟨n, g, hg, hm⟩
    cases hget : get s id with
    | some d => exact ⟨d, rfl⟩
    | none =>
      have := h2.mp hget n g hg
      rw [hm] at this; cases this

/-- An instance of `get_returns_first_match`: in the store after
`new FuncStack(null, [abc, def]).start()`, with `ghi` added afterwards, the name `def` is
found in working at position 1. -/
theorem get_returns_first_match_witness :
    get (add (start (construct {} [abc, def_])).state (.array [.fn ghi]) none).state
      (.str "def" .nan) = some ⟨def_, .working, 1, some 1⟩ ∧
    (stack (add (start (construct {} [abc, def_])).state (.array [.fn ghi]) none).state
      StackName.working)[1]? = some def_ :=
  ⟨by decide,
    ((get_returns_first_match
      (add (start (construct {} [abc, def_])).state (.array [.fn ghi]) none).state
      (.str "def" .nan)).1 ⟨def_, .working, 1, some 1⟩ (by decide)).2.1⟩

/-! ### Cancellation -/

theorem get_fn_of_working (s : FuncStack) (t : Fn) (hq : t ∉ s.queue) (hw : t ∈ s.working) :
    ∃ i, get s (.fn t) = some i ∧ i.fn = t ∧ i.stack = StackName.working := by
  cases hget : get s (.fn t) with
  | none =>
    have := get_fn_isSome_of_working s t hw
    rw [hget] at this; simp at this
  | some i =>
    obtain ⟨a1, a2, _, _, a5⟩ := (get_spec s (.fn t)).1 i hget
    have hfn : i.fn = t := by simpa [matchesId] using a1
    refine ⟨i, rfl, hfn, ?_⟩
    have hmem : i.fn ∈ stack s i.stack := List.getElem?_mem a2
    cases hst : i.stack with
    | queue => rw [hst, hfn] at hmem; exact absurd hmem hq
    | working => rfl
    | done =>
      have := a5 .working t (by rw [hst]; decide) hw
      simp [matchesId] at this
    | error =>
      have := a5 .working t (by rw [hst]; decide) hw
      simp [matchesId] at this

/-- C15: let `get` resolve the identifier to a task in working.  Without a validate
function, or with one that returns true, `cancel` returns true, erases the task from
working, appends it to error and invokes the error observer once with the status
canceled; pending, done and the scheduled wrappers are as before (nothing is admitted)
and the completion observer is not invoked.  With a validate function that returns false
`cancel` returns false and the store is as before.  A function that is in working and
not in pending is resolved by `get` to itself in working. -/
theorem cancel_inFlight_task (s : FuncStack) (id : Ident)
    (validateFn : Option (FnInfoObject → Bool)) (info : FnInfoObject)
    (hg : get s id = some info) (hs : info.stack = StackName.working) :
    info.fn ∈ s.working ∧
    ((∀ g, validateFn = some g → g info = true) →
      (cancel s id validateFn).result = .ok (some true) ∧
      (cancel s id validateFn).state =
        { s with working := s.working.erase info.fn, error := s.error ++ [info.fn],
                 log := s.log ++ [Event.onError
                   ⟨CANCELED, .undefined, s.queueModeOf info.fn, countsOf s⟩ info.fn] } ∧
      (cancel s id validateFn).state.queue = s.queue ∧
      (cancel s id validateFn).state.done = s.done ∧
      (cancel s id validateFn).state.timers = s.timers) ∧
    (∀ g, validateFn = some g → g info = false →
      (cancel s id validateFn).result = .ok (some false) ∧
      (cancel s id validateFn).state = s) ∧
    (∀ t, t ∉ s.queue → t ∈ s.working →
      ∃ i, get s (.fn t) = some i ∧ i.fn = t ∧ i.stack = StackName.working) := by
  obtain ⟨_, a2, _, _, _⟩ := (get_spec s id).1 info hg
  have hmem : info.fn ∈ s.working := by
    have := List.getElem?_mem a2
    rw [hs] at this; exact this
  have hguard : (info.state != ENUM_STATUS_WORKING) = false := by
    simp [FnInfoObject.state, ENUM_STATUS_WORKING]
  refine ⟨hmem, ?_, ?_, fun t hq hw => get_fn_of_working s t hq hw⟩
  · intro hv
    have hchk := _check_some_failure s ⟨CANCELED, .undefined⟩ info.fn (some info.stack)
      (Or.inr rfl)
    have hnew : (afterSwitch (pushError (removed s (some info.stack) info.fn) info.fn
          (snapshot s ⟨CANCELED, .undefined⟩ info.fn))
          (snapshot s ⟨CANCELED, .undefined⟩ info.fn) (some info.stack)) =
        { s with working := s.working.erase info.fn, error := s.error ++ [info.fn],
                 log := s.log ++ [Event.onError
                   ⟨CANCELED, .undefined, s.queueModeOf info.fn, countsOf s⟩ info.fn] } := by
      simp [afterSwitch, pushError, removed, hs, setStack, stack,
        splice1_indexOf_mem _ _ hmem, snapshot]
    have hboth : (cancel s id validateFn).result = .ok (some true) ∧
        (cancel s id validateFn).state =
          { s with working := s.working.erase info.fn, error := s.error ++ [info.fn],
                   log := s.log ++ [Event.onError
                     ⟨CANCELED, .undefined, s.queueModeOf info.fn, countsOf s⟩ info.fn] } := by
      cases validateFn with
      | none =>
        simp only [cancel, hg, hguard, hchk, Bool.false_eq_true, if_false]
        exact ⟨trivial, hnew⟩
      | some g =>
        have hgi : (!g info) = false := by simp [hv g rfl]
        simp only [cancel, hg, hguard, hchk, hgi, Bool.false_eq_true, if_false]
        exact ⟨trivial, hnew⟩
    refine ⟨hboth.1, hboth.2, ?_, ?_, ?_⟩
    · rw [hboth.2]
    · rw [hboth.2]
    · rw [hboth.2]
  · intro g hv hfalse
    subst hv
    simp [cancel, hg, hguard, hfalse]

/-- Witness for C15: `cancel(abc)` in the store after `new FuncStack(null, [abc]).start()`. -/
theorem cancel_inFlight_task_witness :
    get startedOne (.fn abc) = some ⟨abc, .working, 0, some 0⟩ ∧
    (cancel startedOne (.fn abc) none).result = .ok (some true) :=
  ⟨by decide,
    ((cancel_inFlight_task startedOne (.fn abc) none ⟨abc, .working, 0, some 0⟩
      (by decide) rfl).2.1 (fun g h => by cases h)).1⟩

/-- C14, evaluated on the code: `cancel(abc)` on `new FuncStack(null, [abc])`, where `abc`
is still pending, returns true, moves `abc` from pending to error and invokes the error
observer; on the finished run `plainFinished`, where `abc` is in done, it returns true
and moves `abc` from done to error.  Only an identifier that matches no stored task gives
the not-applicable value, with the store unchanged. -/
theorem cancel_takes_tasks_outside_inFlight :
    (cancel (construct {} [abc]) (.fn abc) none).result = .ok (some true) ∧
    (cancel (construct {} [abc]) (.fn abc) none).state.queue = [] ∧
    (cancel (construct {} [abc]) (.fn abc) none).state.error = [abc] ∧
    (cancel (construct {} [abc]) (.fn abc) none).state.log =
      [Event.onError ⟨CANCELED, .undefined, some .async, ⟨none, 1, 0, 1, 0, 1⟩⟩ abc] ∧
    (cancel plainFinished (.str "abc" .nan) none).result = .ok (some true) ∧
    (cancel plainFinished (.str "abc" .nan) none).state.done = [] ∧
    (cancel plainFinished (.str "abc" .nan) none).state.error = [abc] ∧
    (∀ (s : FuncStack) (id : Ident) (v : Option (FnInfoObject → Bool)), get s id = none →
      (cancel s id v).result = .ok none ∧ (cancel s id v).state = s) := by
  refine ⟨rfl, by decide, by decide, by decide, rfl, by decide, by decide, ?_⟩
  intro s id v h
  simp [cancel, h]

/-- C16, evaluated on the code: the first argument handed to the start observer is
`this.options.startCount`, not the recorded `_data.startCount`.  After
`new FuncStack(null, [abc, def]).start()` the recorded start count is 2 and the observer
was invoked once, with undefined as its first argument. -/
theorem start_observer_receives_options_startCount (s : FuncStack) :
    (∃ w, (startPrologue s).log = s.log ++ [Event.onStart s.options.startCount w]) ∧
    (start (construct {} [abc, def_])).state.startCount = some 2 ∧
    (start (construct {} [abc, def_])).state.log = [Event.onStart none false] := by
  obtain ⟨_, _, _, _, _, _, _, _, _, _, w, hw⟩ := startPrologue_fields s
  exact ⟨⟨w, hw⟩, by decide, by decide⟩

/-- C17, evaluated on the code: `restart` increments the restart counter and then raises
a TypeError at `this._data.working.combine`; pending, working, done and error are as
before, nothing is re-enqueued and `start` is not reached. -/
theorem restart_raises (s : FuncStack) (excludeErrors : Bool) :
    (restart s excludeErrors).result = .error .typeError ∧
    (restart s excludeErrors).state.restarted = s.restarted + 1 ∧
    (restart s excludeErrors).state.queue = s.queue ∧
    (restart s excludeErrors).state.working = s.working ∧
    (restart s excludeErrors).state.done = s.done ∧
    (restart s excludeErrors).state.error = s.error ∧
    (restart s excludeErrors).state.log = s.log :=
  ⟨rfl, rfl, rfl, rfl, rfl, rfl, rfl⟩

/-- C18, evaluated on the code: `clear` raises a ReferenceError in `_gc` and leaves the
store as it was; after `new FuncStack(null, [abc])` and `clear()`, `length()` is still 1
and `abc` is still pending. -/
theorem clear_raises (s : FuncStack) :
    (clear s).result = .error .referenceError ∧ (clear s).state = s ∧
    length (clear (construct {} [abc])).state = 1 ∧
    (clear (construct {} [abc])).state.queue = [abc] :=
  ⟨rfl, rfl, rfl, rfl⟩

/-- C20: for a notification whose status is none of success, error and canceled, `_check`
called with a task raises; it invokes no observer and schedules no wrapper; without a
stack name pending and done are as before, and a task that was in working has been
erased from working and appended to error.  The same holds when the notification is
omitted, and a resolver handed such a notification raises as well. -/
theorem unrecognised_outcome_is_fatal (s : FuncStack) (n : StatusNotificationObject) (t : Fn)
    (st : Option StackName) (h1 : n.status ≠ SUCCESS) (h2 : n.status ≠ ERROR)
    (h3 : n.status ≠ CANCELED) :
    (_check s (some n) (some t) st).result = .error .statusFaulty ∧
    (_check s (some n) (some t) st).state.log = s.log ∧
    (_check s (some n) (some t) st).state.timers = s.timers ∧
    (st = none →
      (_check s (some n) (some t) st).state.queue = s.queue ∧
      (_check s (some n) (some t) st).state.done = s.done) ∧
    (st = none → t ∈ s.working →
      (_check s (some n) (some t) st).state.working = s.working.erase t ∧
      (_check s (some n) (some t) st).state.error = s.error ++ [t]) ∧
    ((_check s none (some t) st).result = .error .statusFaulty ∧
      (_check s none (some t) st).state.log = s.log) ∧
    (t ∈ s.working →
      (resolveFn s t (.notification n) .undefined).result = .error .statusFaulty ∧
      (resolveFn s t (.notification n) .undefined).state.log = s.log) := by
  have hc := _check_some_faulty s n t st h1 h2 h3
  have hrem : ∀ st2 : Option StackName, (removed s st2 t).timers = s.timers := by
    intro st2; unfold removed; cases st2.getD StackName.working <;> rfl
  refine ⟨by rw [hc], by rw [hc]; simp [removed_log], by rw [hc]; simp [hrem], ?_, ?_, ?_, ?_⟩
  · intro hst; subst hst
    rw [hc]; exact ⟨rfl, rfl⟩
  · intro hst ht; subst hst
    rw [hc]
    simp [removed, setStack, stack, splice1_indexOf_mem _ _ ht]
  · rw [_check_omitted,
      _check_some_faulty s ⟨.undefined, .undefined⟩ t st (by decide) (by decide) (by decide)]
    exact ⟨rfl, by simp [removed_log]⟩
  · intro ht
    obtain ⟨r1, r2⟩ := resolveFn_of_get s t (.notification n) .undefined
      (get_fn_isSome_of_working s t ht)
    rw [r1, r2]
    simp only
    rw [_check_some_faulty s n t none h1 h2 h3]
    exact ⟨rfl, by simp [removed_log]⟩

/-- Witness for C20: the status `'done'` delivered for `abc` in working. -/
theorem unrecognised_outcome_is_fatal_witness :
    JsVal.str "done" ≠ SUCCESS ∧ JsVal.str "done" ≠ ERROR ∧ JsVal.str "done" ≠ CANCELED ∧
    (_check startedOne (some ⟨.str "done", .undefined⟩) (some abc) none).result
      = .error .statusFaulty :=
  ⟨by decide, by decide, by decide,
    (unrecognised_outcome_is_fatal startedOne ⟨.str "done", .undefined⟩ abc none
      (by decide) (by decide) (by decide)).1⟩

/-! ### Arguments and modes of `add` -/

/-- C21: `add` called with an argument that is neither a function nor an array raises the
error of line 132 and leaves the store, hence pending, working, done, error and the
counter, as it was.  The only `return` of `add` returns the store: a single function and
an array of functions make it return normally. -/
theorem add_rejects_other_arguments (s : FuncStack) (mode : Option QueueMode) :
    (add s .other mode).result = .error .addArgument ∧
    (add s .other mode).state = s ∧
    (add s .other mode).state.queue = s.queue ∧
    (add s .other mode).state.working = s.working ∧
    (add s .other mode).state.done = s.done ∧
    (add s .other mode).state.error = s.error ∧
    length (add s .other mode).state = length s ∧
    (∀ f, (add s (.func f) mode).result = .ok ()) ∧
    (∀ fs : List Fn, (add s (.array (fs.map AddItem.fn)) mode).result = .ok ()) :=
  ⟨rfl, rfl, rfl, rfl, rfl, rfl, rfl, fun _ => rfl, fun fs => (addLoop_fns mode fs s).1⟩

theorem register_options (s : FuncStack) (qm : Option QueueMode) (m : Option AddMode) (f : Fn) :
    (register s qm m f).options = s.options := rfl

theorem register_mode (s : FuncStack) (qm : Option QueueMode) (m : Option AddMode) (f g : Fn) :
    (register s qm m f).queueModeOf g =
      if g = f then some (assignedMode s.options qm) else s.queueModeOf g := rfl

/-- The queue modes after the loop of `add`: every registered function carries the mode
of this call, other functions keep theirs. -/
theorem addLoop_modes (qm : Option QueueMode) (items : List AddItem) :
    ∀ s : FuncStack,
      (addLoop qm s items).state.options = s.options ∧
      (∀ g, g ∈ registeredFns items →
        (addLoop qm s items).state.queueModeOf g = some (assignedMode s.options qm)) ∧
      (∀ g, g ∉ registeredFns items →
        (addLoop qm s items).state.queueModeOf g = s.queueModeOf g) := by
  induction items with
  | nil => intro s; exact ⟨rfl, by intro g hg; simp [registeredFns] at hg, fun _ _ => rfl⟩
  | cons it rest ih =>
    intro s
    have step : ∀ (m : Option AddMode) (f : Fn),
        (addLoop qm (register s qm m f) rest).state.options = s.options ∧
        (∀ g, g ∈ f :: registeredFns rest →
          (addLoop qm (register s qm m f) rest).state.queueModeOf g
            = some (assignedMode s.options qm)) ∧
        (∀ g, g ∉ f :: registeredFns rest →
          (addLoop qm (register s qm m f) rest).state.queueModeOf g = s.queueModeOf g) := by
      intro m f
      obtain ⟨h1, h2, h3⟩ := ih (register s qm m f)
      rw [register_options] at h1 h2
      refine ⟨h1, ?_, ?_⟩
      · intro g hg
        by_cases hr : g ∈ registeredFns rest
        · exact h2 g hr
        · rw [h3 g hr, register_mode]
          have : g = f := by
            rcases List.mem_cons.mp hg with h | h
            · exact h
            · exact absurd h hr
          simp [this]
      · intro g hg
        have hgf : g ≠ f := fun h => hg (by simp [h])
        have hgr : g ∉ registeredFns rest := fun h => hg (by simp [h])
        rw [h3 g hgr, register_mode]
        simp [hgf]
    cases it with
    | fn f => simpa only [addLoop, registeredFns] using step (some s.options.addMode) f
    | obj m of =>
      cases of with
      | none => exact ⟨rfl, by intro g hg; simp [registeredFns] at hg, fun _ _ => rfl⟩
      | some f => simpa only [addLoop, registeredFns] using step m f
    | nullish => exact ⟨rfl, by intro g hg; simp [registeredFns] at hg, fun _ _ => rfl⟩

/-- C22: every function registered by `add(array, mode)` carries afterwards the configured
default mode when the enforce option is set, whatever mode was requested; otherwise it
carries the mode of the call when one is given and the configured default mode when
none is given.  Functions the call does not register keep their mode. -/
theorem add_assigns_queue_mode (s : FuncStack) (items : List AddItem)
    (mode : Option QueueMode) (f : Fn) (hf : f ∈ registeredFns items) :
    (s.options.enforceDefaultQueueMode = true →
      (add s (.array items) mode).state.queueModeOf f = some s.options.defaultQueueMode) ∧
    (s.options.enforceDefaultQueueMode = false → ∀ m, mode = some m →
      (add s (.array items) mode).state.queueModeOf f = some m) ∧
    (s.options.enforceDefaultQueueMode = false → mode = none →
      (add s (.array items) mode).state.queueModeOf f = some s.options.defaultQueueMode) ∧
    (∀ g, g ∉ registeredFns items →
      (add s (.array items) mode).state.queueModeOf g = s.queueModeOf g) := by
  obtain ⟨_, h2, h3⟩ := addLoop_modes mode items s
  have h := h2 f hf
  refine ⟨?_, ?_, ?_, h3⟩
  · intro he
    show (addLoop mode s items).state.queueModeOf f = _
    rw [h]; simp [assignedMode, he]
  · intro he m hm
    show (addLoop mode s items).state.queueModeOf f = _
    rw [h]; simp [assignedMode, he, hm]
  · intro he hm
    show (addLoop mode s items).state.queueModeOf f = _
    rw [h]; simp [assignedMode, he, hm]

/-- Witness for C22: `add([abc, def], 'defer')` on a fresh store with default options gives
`def` the defer mode. -/
theorem add_assigns_queue_mode_witness :
    def_ ∈ registeredFns [AddItem.fn abc, AddItem.fn def_] ∧
    (add (fresh {}) (.array [.fn abc, .fn def_]) (some .defer)).state.queueModeOf def_
      = some QueueMode.defer :=
  ⟨by decide,
    (add_assigns_queue_mode (fresh {}) [.fn abc, .fn def_] (some .defer) def_
      (by decide)).2.1 rfl QueueMode.defer rfl⟩

/-! ### Deferred completion -/

/-- C23: when the body of a task in working calls `preventDefault` and returns without
throwing, the wrapper does not resolve it: the store is exactly as before the body ran,
so the task is still in working, no observer was invoked and pending is untouched (the
firing of the timer only removes the timer).  A later resolver call with the status
success or error returns true and performs the terminal transition with that status and
that result: the task is erased from working and appended to done (success) or to error
(error), and the progress or error observer receives a snapshot with exactly that status
and result. -/
theorem deferred_completion_waits_for_resolver (s : FuncStack) (f : Fn) (v st r : JsVal)
    (hf : f ∈ s.working) (hst : st = SUCCESS ∨ st = ERROR) :
    fnWrapper s f ⟨true, .returns v⟩ = ⟨s, .ok ()⟩ ∧
    f ∈ (fnWrapper s f ⟨true, .returns v⟩).state.working ∧
    (∀ rest, s.timers = f :: rest →
      (fireTimer s ⟨true, .returns v⟩).state = { s with timers := rest }) ∧
    (resolveFn s f (.value st) r).result = .ok true ∧
    (∃ k, k ≤ s.queue.length ∧
      (resolveFn s f (.value st) r).state.working = s.working.erase f ++ s.queue.take k ∧
      (resolveFn s f (.value st) r).state.queue = s.queue.drop k) ∧
    (st = SUCCESS →
      (resolveFn s f (.value st) r).state.done = s.done ++ [f] ∧
      (resolveFn s f (.value st) r).state.error = s.error ∧
      ∃ tail, (resolveFn s f (.value st) r).state.log =
        s.log ++ Event.onProgress ⟨st, r, s.queueModeOf f, countsOf s⟩ f :: tail) ∧
    (st = ERROR →
      (resolveFn s f (.value st) r).state.done = s.done ∧
      (resolveFn s f (.value st) r).state.error = s.error ++ [f] ∧
      ∃ tail, (resolveFn s f (.value st) r).state.log =
        s.log ++ Event.onError ⟨st, r, s.queueModeOf f, countsOf s⟩ f :: tail) := by
  have hw : fnWrapper s f ⟨true, .returns v⟩ = ⟨s, .ok ()⟩ := by
    simp [fnWrapper, JsVal.truthy]
  obtain ⟨h1, h2⟩ := resolveFn_of_get s f (.value st) r (get_fn_isSome_of_working s f hf)
  refine ⟨hw, by rw [hw]; exact hf, ?_, ?_, ?_, ?_, ?_⟩
  · intro rest hrest
    simp only [fireTimer, hrest]
    simp [fnWrapper, JsVal.truthy]
  · rw [h2]
    rcases hst with hs | hs
    · rw [_check_inFlight_success s ⟨st, r⟩ f hf hs]
    · rw [_check_inFlight_failure s ⟨st, r⟩ f hf (Or.inl hs)]
  · rw [h1]
    rcases hst with hs | hs
    · rw [_check_inFlight_success s ⟨st, r⟩ f hf hs]
      obtain ⟨k, hk, h | ⟨h, _, _⟩⟩ := afterSwitch_none
        { s with working := s.working.erase f, done := s.done ++ [f],
                 log := s.log ++ [Event.onProgress (snapshot s ⟨st, r⟩ f) f] }
        (snapshot s ⟨st, r⟩ f)
      · rw [h]; exact ⟨k, hk, rfl, rfl⟩
      · rw [h]; exact ⟨k, hk, rfl, rfl⟩
    · rw [_check_inFlight_failure s ⟨st, r⟩ f hf (Or.inl hs)]
      obtain ⟨k, hk, h | ⟨h, _, _⟩⟩ := afterSwitch_none
        { s with working := s.working.erase f, error := s.error ++ [f],
                 log := s.log ++ [Event.onError (snapshot s ⟨st, r⟩ f) f] }
        (snapshot s ⟨st, r⟩ f)
      · rw [h]; exact ⟨k, hk, rfl, rfl⟩
      · rw [h]; exact ⟨k, hk, rfl, rfl⟩
  · intro hs
    rw [h1, _check_inFlight_success s ⟨st, r⟩ f hf hs]
    obtain ⟨k, hk, h | ⟨h, _, _⟩⟩ := afterSwitch_none
      { s with working := s.working.erase f, done := s.done ++ [f],
               log := s.log ++ [Event.onProgress (snapshot s ⟨st, r⟩ f) f] }
      (snapshot s ⟨st, r⟩ f)
    · rw [h]; exact ⟨rfl, rfl, [], rfl⟩
    · rw [h]; exact ⟨rfl, rfl, [Event.onCompleted (snapshot s ⟨st, r⟩ f)], by simp [snapshot]⟩
  · intro hs
    rw [h1, _check_inFlight_failure s ⟨st, r⟩ f hf (Or.inl hs)]
    obtain ⟨k, hk, h | ⟨h, _, _⟩⟩ := afterSwitch_none
      { s with working := s.working.erase f, error := s.error ++ [f],
               log := s.log ++ [Event.onError (snapshot s ⟨st, r⟩ f) f] }
      (snapshot s ⟨st, r⟩ f)
    · rw [h]; exact ⟨rfl, rfl, [], rfl⟩
    · rw [h]; exact ⟨rfl, rfl, [Event.onCompleted (snapshot s ⟨st, r⟩ f)], by simp [snapshot]⟩

/-- Witness for C23: in `startedOne` the task `abc` is in working; its body calls
`preventDefault` and returns, and the resolver is called later with `'success'`. -/
theorem deferred_completion_waits_for_resolver_witness :
    abc ∈ startedOne.working ∧
    (fnWrapper startedOne abc ⟨true, .returns .undefined⟩).state = startedOne ∧
    (resolveFn startedOne abc (.value SUCCESS) (.num 7)).result = .ok true := by
  have h := deferred_completion_waits_for_resolver startedOne abc .undefined SUCCESS (.num 7)
    (by decide) (Or.inl rfl)
  exact ⟨by decide, by rw [h.1], h.2.2.2.1⟩

/-! ### Placement -/

theorem register_queue (s : FuncStack) (qm : Option QueueMode) (m : Option AddMode) (f : Fn) :
    (register s qm m f).queue =
      if (match m with
          | none => true
          | some a => !a.truthy) = true then s.queue ++ [f] else f :: s.queue := rfl

/-- The queue after the loop of `add` over an array all of whose elements carry a
function. -/
theorem addLoop_queue (qm : Option QueueMode) (items : List AddItem) :
    ∀ s : FuncStack, (∀ it ∈ items, it.task.isSome = true) →
      (addLoop qm s items).result = .ok () ∧
      (addLoop qm s items).state.queue =
        (topFns s.options items).reverse ++ s.queue ++ bottomFns s.options items := by
  induction items with
  | nil => intro s _; simp [addLoop, topFns, bottomFns]
  | cons it rest ih =>
    intro s h
    have hrest : ∀ it2 ∈ rest, it2.task.isSome = true :=
      fun it2 h2 => h it2 (List.mem_cons_of_mem _ h2)
    have hit := h it (List.mem_cons_self _ _)
    cases it with
    | fn f =>
      obtain ⟨h1, h2⟩ := ih (register s qm (some s.options.addMode) f) hrest
      rw [register_options, register_queue] at h2
      refine ⟨h1, ?_⟩
      simp only [addLoop]
      rw [h2]
      cases hm : s.options.addMode <;>
        simp [topFns, bottomFns, AddItem.placedTop, AddItem.task, AddMode.truthy, hm]
    | obj m of =>
      cases of with
      | none => simp [AddItem.task] at hit
      | some f =>
        obtain ⟨h1, h2⟩ := ih (register s qm m f) hrest
        rw [register_options, register_queue] at h2
        refine ⟨h1, ?_⟩
        simp only [addLoop]
        rw [h2]
        cases m with
        | none => simp [topFns, bottomFns, AddItem.placedTop, AddItem.task]
        | some a =>
          cases a <;> simp [topFns, bottomFns, AddItem.placedTop, AddItem.task, AddMode.truthy]
    | nullish => simp [AddItem.task] at hit

/-- C24 as stated fails: on `new FuncStack({addMode: TOP}, [abc])`, `add([{fn: def}])` puts
`def` at the bottom of pending although the configured default placement is TOP. -/
theorem pair_without_addMode_goes_to_bottom :
    (construct { addMode := .top } [abc]).options.addMode = AddMode.top ∧
    (construct { addMode := .top } [abc]).queue = [abc] ∧
    omittedPlacement.queue = [abc, def_] := by
  refine ⟨by decide, by decide, by decide⟩

/-- C24, amended: `add` called with an array all of whose elements carry a function
returns normally, and pending afterwards is the functions placed at the top in reverse
array order, then the old pending in its order, then the functions placed at the bottom
in array order.  A bare function is placed according to the configured `addMode`; an
object element according to its own `addMode`, and at the bottom when it has none,
whatever the configured `addMode`.  So `[a, b]` added with BOTTOM gives pending followed
by a, b, and with TOP gives b, a followed by pending. -/
theorem add_places_tasks (s : FuncStack) (items : List AddItem) (mode : Option QueueMode)
    (h : ∀ it ∈ items, it.task.isSome = true) :
    (add s (.array items) mode).result = .ok () ∧
    (add s (.array items) mode).state.queue =
      (topFns s.options items).reverse ++ s.queue ++ bottomFns s.options items ∧
    (∀ a b, s.options.addMode = AddMode.bottom →
      (add s (.array [.fn a, .fn b]) mode).state.queue = s.queue ++ [a, b]) ∧
    (∀ a b, s.options.addMode = AddMode.top →
      (add s (.array [.fn a, .fn b]) mode).state.queue = [b, a] ++ s.queue) ∧
    (∀ a b, (add s (.array [.obj (some .bottom) (some a), .obj (some .bottom) (some b)])
      mode).state.queue = s.queue ++ [a, b]) ∧
    (∀ a b, (add s (.array [.obj (some .top) (some a), .obj (some .top) (some b)])
      mode).state.queue = [b, a] ++ s.queue) ∧
    (∀ a, (add s (.array [.obj none (some a)]) mode).state.queue = s.queue ++ [a]) := by
  obtain ⟨h1, h2⟩ := addLoop_queue mode items s h
  refine ⟨h1, h2, ?_, ?_, ?_, ?_, ?_⟩
  · intro a b hm
    simp [add, addLoop, register, hm, AddMode.truthy]
  · intro a b hm
    simp [add, addLoop, register, hm, AddMode.truthy]
  · intro a b
    simp [add, addLoop, register, AddMode.truthy]
  · intro a b
    simp [add, addLoop, register, AddMode.truthy]
  · intro a
    simp [add, addLoop, register]

/-- Witness for C24: `add([def, {addMode: TOP, fn: ghi}])` on the store
`new FuncStack(null, [abc])`. -/
theorem add_places_tasks_witness :
    (∀ it ∈ [AddItem.fn def_, AddItem.obj (some .top) (some ghi)], it.task.isSome = true) ∧
    (add (construct {} [abc]) (.array [.fn def_, .obj (some .top) (some ghi)])
      none).state.queue = [ghi, abc, def_] := by
  have h := add_places_tasks (construct {} [abc])
    [.fn def_, .obj (some .top) (some ghi)] none (by decide)
  exact ⟨by decide, h.2.1.trans (by decide)⟩

/-! ### What `_check` removes -/

theorem stack_setStack (s : FuncStack) (n : StackName) (l : List Fn) :
    stack (setStack s n l) n = l := by
  cases n <;> rfl

/-- C25, evaluated on the code: the removal of `_check` erases the first occurrence of the
task when the named array (working without a name) holds it, and drops the last element
of that array when it does not, because `indexOf` is then -1 and `splice(-1, 1)`
removes the last element.  With `def` and `ghi` waiting in working, a second resolver
call of the finished `abc` returns true and removes `ghi` from working; `ghi` is then in
none of the four collections. -/
theorem check_drops_last_task_when_given_task_is_absent (s : FuncStack)
    (st : Option StackName) (t : Fn) :
    (t ∈ stack s (st.getD .working) →
      stack (removed s st t) (st.getD .working) = (stack s (st.getD .working)).erase t) ∧
    (t ∉ stack s (st.getD .working) →
      stack (removed s st t) (st.getD .working) = (stack s (st.getD .working)).dropLast) ∧
    (firstOfThreeResolved.working = [def_, ghi] ∧ firstOfThreeResolved.done = [abc]) ∧
    firstOfThreeResolvedAgain.result = .ok true ∧
    firstOfThreeResolvedAgain.state.working = [def_] ∧
    firstOfThreeResolvedAgain.state.queue = [] ∧
    firstOfThreeResolvedAgain.state.done = [abc, abc] ∧
    firstOfThreeResolvedAgain.state.error = [] := by
  refine ⟨?_, ?_, ⟨by decide, by decide⟩, rfl, by decide, by decide, by decide, by decide⟩
  · intro h
    unfold removed
    rw [stack_setStack, splice1_indexOf_mem _ _ h]
  · intro h
    unfold removed
    rw [stack_setStack, splice1_indexOf_not_mem _ _ h]

/-! ### Strings that convert to a number -/

theorem matchesId_numeric_string (s : FuncStack) (str : String) (k : Nat) (f : Fn) :
    matchesId s (.str str (.nat k)) f = matchesId s (.num k) f := by
  simp only [matchesId]
  cases s.fnCountOf f with
  | none => rfl
  | some c => simp

theorem scanStack_congr (s : FuncStack) (id1 id2 : Ident) (n : StackName)
    (h : ∀ f, matchesId s id1 f = matchesId s id2 f) (l : List Fn) :
    ∀ pos, scanStack s id1 n l pos = scanStack s id2 n l pos := by
  induction l with
  | nil => intro pos; rfl
  | cons f rest ih =>
    intro pos
    simp only [scanStack, h f, ih (pos + 1)]

/-- C19, evaluated on the code: a string that converts to the number k is looked up as the
number k (line 447 chooses the key `fnCount` for it), so `get` returns for it what it
returns for k and the names of the stored functions are not consulted.  In the store
`new FuncStack(null, [abc, anonymousFn, namedOne])`, `get('1')` returns the anonymous
function, whose id is 1, and not the function named `1` at position 2, which a lookup
by name (the same string read as no number) would return; in
`new FuncStack(null, [abc])`, `get('')` returns `abc` although no stored function has the
empty name. -/
theorem get_reads_numeric_strings_as_ids (s : FuncStack) (str : String) (k : Nat) :
    get s (.str str (.nat k)) = get s (.num k) ∧
    (digitsValue "1" = some 1 ∧ digitsValue "" = some 0) ∧
    (numericNameStore.queue = [abc, anonymousFn, namedOne] ∧
      namedOne.name = "1" ∧ anonymousFn.name = "") ∧
    get numericNameStore (.str "1" (.nat 1)) = some ⟨anonymousFn, .queue, 1, some 1⟩ ∧
    get numericNameStore (.str "1" .nan) = some ⟨namedOne, .queue, 2, some 2⟩ ∧
    get (construct {} [abc]) (.str "" (.nat 0)) = some ⟨abc, .queue, 0, some 0⟩ ∧
    get (construct {} [abc]) (.str "" .nan) = none := by
  refine ⟨?_, ⟨by decide, by decide⟩, ⟨by decide, rfl, rfl⟩, by decide, by decide, by decide,
    by decide⟩
  have h := matchesId_numeric_string s str k
  simp only [get, scanStack_congr s (.str str (.nat k)) (.num k) _ h]

end FuncStack
